import Mathlib

/- Verification development for the hydral melody-generation core
   (the songMaking / songmaking packages): a shallow embedding of the
   harmony builder, the note utilities, the generation strategies, the
   structure enforcer, the evaluation suite and the CLI retry loop,
   together with theorems settling the specification claims.

   Numeric conventions: Python floats appearing in this core are dyadic
   rationals (duration alphabet, 1/8-beat grid, probability thresholds),
   on which Python float arithmetic is exact, so beats and probabilities
   are embedded as rationals; MIDI pitches are embedded as integers. -/

set_option maxHeartbeats 1600000

/- Core's rational arithmetic is `@[irreducible]`, which blocks kernel
evaluation of concrete runs; restore default reducibility locally. -/
attribute [local semireducible] Rat.add Rat.mul Rat.sub Rat.inv

/-! ## Model of a `random.Random` instance

A seeded `random.Random` instance is modelled as an infinite stream of raw
natural-number draws together with a cursor.  The concrete pseudo-random
algorithm (Mersenne Twister) is outside the embedding: theorems are stated
over an arbitrary seed-to-state function `mk : ℤ → RState`, matching the
determinism contract's allowance that the PRNG itself need not be
reproduced bit for bit, only consumed deterministically. -/

structure RState where
  stream : Nat → Nat
  pos : Nat

def RState.raw (s : RState) : Nat := s.stream s.pos

def RState.advance (s : RState) : RState := ⟨s.stream, s.pos + 1⟩

/-- Denominator used to turn one raw draw into a rational in `[0,1)`,
mirroring CPython's 53-bit `random()` output. -/
def rawDenom : Nat := 2 ^ 53

/-- `rng.random()`: one draw, a rational in `[0,1)`. -/
def pyRandom (s : RState) : ℚ × RState :=
  (((s.raw % rawDenom : ℕ) : ℚ) / (rawDenom : ℚ), s.advance)

/-- `rng.choice(l)` on a list presented with an explicit head, so the call
is total: one draw selects an index below the length. -/
def pyChoiceNE {α : Type} (a : α) (rest : List α) (s : RState) : α × RState :=
  ((a :: rest).get ⟨s.raw % (rest.length + 1), Nat.mod_lt _ (Nat.succ_pos _)⟩,
    s.advance)

/-- `rng.choice(l)` on an arbitrary list; `none` models the `IndexError`
Python raises on an empty sequence. -/
def pyChoice {α : Type} (l : List α) (s : RState) : Option (α × RState) :=
  match l with
  | [] => none
  | a :: rest => some (pyChoiceNE a rest s)

/-- Core of `rng.randint(a, b)` (inclusive bounds): one draw reduced into
`[a, b]`.  Callers with provably valid bounds use this directly. -/
def pyRandintI (a b : ℤ) (s : RState) : ℤ × RState :=
  (a + (s.raw : ℤ) % (b - a + 1), s.advance)

/-- `rng.randint(a, b)`; `none` models the `ValueError` on an empty range. -/
def pyRandint (a b : ℤ) (s : RState) : Option (ℤ × RState) :=
  if a ≤ b then some (pyRandintI a b s) else none

/-- `rng.choices(population, weights=w)[0]`: one draw scaled by the total
weight selects the first population entry whose cumulative weight exceeds
it.  `none` models the errors Python raises on an empty population or a
non-positive total weight. -/
def pyChoicesW {α : Type} (population : List α) (weights : List ℚ) (s : RState) :
    Option (α × RState) :=
  match population with
  | [] => none
  | a :: rest =>
    let total := weights.sum
    if 0 < total then
      let q := (((s.raw % rawDenom : ℕ) : ℚ) / (rawDenom : ℚ)) * total
      let pick : List α → List ℚ → ℚ → α := fun pop ws acc =>
        pop.zip ws |>.foldl
          (fun st pw =>
            match st with
            | (found, accw) =>
              match found with
              | some x => (some x, accw)
              | none =>
                let accw2 := accw + pw.2
                if q < accw2 then (some pw.1, accw2) else (none, accw2))
          ((none : Option α), acc)
        |>.1.getD ((a :: rest).getLast (by simp))
      some (pick (a :: rest) weights 0, s.advance)
    else none

/-- Floor of a rational, written out so that it evaluates by kernel
reduction (`⌊q⌋ = q.num / q.den` with Euclidean integer division). -/
def ratFloor (q : ℚ) : ℤ := q.num / (q.den : ℤ)

/-- Python `int(x)` (truncation toward zero). -/
def pyInt (q : ℚ) : ℤ := if 0 ≤ q then ratFloor q else -(ratFloor (-q))

/-- Python `round(x)` for a rational argument: round half to even. -/
def pyRound (q : ℚ) : ℤ :=
  if q - (ratFloor q : ℚ) < 1/2 then ratFloor q
  else if (1/2 : ℚ) < q - (ratFloor q : ℚ) then ratFloor q + 1
  else if ratFloor q % 2 = 0 then ratFloor q else ratFloor q + 1

/-- Python `x / y` guarded as the source guards it is not needed here;
this helper is the unguarded Python division whose `none` case models a
`ZeroDivisionError`. -/
def pyDiv (a b : ℚ) : Option ℚ := if b = 0 then none else some (a / b)

/-! ## `songMaking/note_utils.py` -/

namespace songMaking

/-- `DURATION_VALUES`: the fixed duration alphabet in beats
(whole, half, quarter, eighth, sixteenth, thirty-second). -/
def DURATION_VALUES : List ℚ := [4, 2, 1, 1/2, 1/4, 1/8]

/-- `GRID_RESOLUTION`: 32nd-note grid (0.125 beats). -/
def GRID_RESOLUTION : ℚ := 1/8

/-- `get_discrete_duration_values`: returns the standard alphabet
regardless of the time signature (per the source comment). -/
def get_discrete_duration_values (_beats_per_bar : ℚ) : List ℚ :=
  DURATION_VALUES

/-- `snap_to_grid`: round a beat position to the nearest grid point. -/
def snap_to_grid (beat_position : ℚ) (grid_resolution : ℚ) : ℚ :=
  (pyRound (beat_position / grid_resolution) : ℚ) * grid_resolution

/-- `choose_duration`: filter the alphabet to values that fit within the
remaining beats (plus a 0.001 epsilon) and pick uniformly among the
survivors; if none fit, snap the remainder to the grid (no draw). -/
def choose_duration (remaining_beats : ℚ) (allowed_durations : List ℚ)
    (s : RState) : ℚ × RState :=
  let valid := allowed_durations.filter
    (fun d => decide (d ≤ remaining_beats + 1/1000))
  match valid with
  | [] => (snap_to_grid remaining_beats GRID_RESOLUTION, s)
  | a :: rest => pyChoiceNE a rest s

/-- `_note_name_to_midi` (the `note_utils` copy, the one used by
`build_scale_pitch_set`): note name to MIDI number at a given octave,
with the B# enharmonic bumped one octave. -/
def note_name_to_midi (note_name : String) (octave : ℤ) : ℤ :=
  let base : ℤ :=
    match note_name with
    | "C" => 0 | "C#" => 1 | "Db" => 1
    | "D" => 2 | "D#" => 3 | "Eb" => 3
    | "E" => 4 | "Fb" => 4 | "E#" => 5
    | "F" => 5 | "F#" => 6 | "Gb" => 6
    | "G" => 7 | "G#" => 8 | "Ab" => 8
    | "A" => 9 | "A#" => 10 | "Bb" => 10
    | "B" => 11 | "Cb" => 11 | "B#" => 0
    | _ => 0
  let midi_num := (octave + 1) * 12 + base
  if note_name = "B#" then midi_num + 12 else midi_num

/-- Insert into an ascending list (`sorted` on distinct integers). -/
def insert_asc (x : ℤ) : List ℤ → List ℤ
  | [] => [x]
  | y :: ys => if x ≤ y then x :: y :: ys else y :: insert_asc x ys

/-- Ascending insertion sort; on duplicate-free integer lists this is
exactly Python's `sorted`. -/
def sort_ints (l : List ℤ) : List ℤ := l.foldr insert_asc []

/-- `build_scale_pitch_set`: enumerate `base + 12·octave_offset + interval`
for octave offsets `-3..4` and every interval of the pattern, keep the
values inside `[lowest_midi, highest_midi]`, and return them as a sorted
list without duplicates (`sorted(set(...))`). -/
def build_scale_pitch_set (tonic_note : String) (scale_pattern : List ℤ)
    (lowest_midi highest_midi : ℤ) : List ℤ :=
  let base_midi := note_name_to_midi tonic_note 4
  let allowed_pitches :=
    (List.range 8).foldr
      (fun (o : ℕ) acc =>
        scale_pattern.foldr
          (fun interval acc2 =>
            let candidate := base_midi + ((o : ℤ) - 3) * 12 + interval
            if lowest_midi ≤ candidate ∧ candidate ≤ highest_midi then
              candidate :: acc2
            else acc2)
          acc)
      []
  sort_ints allowed_pitches.dedup

/-- `pick_scale_pitch`: octave-up jump with probability
`octave_up_chance` when there is headroom and the jumped pitch stays in
scale; otherwise prefer a neighbour within ±2 scale steps of the previous
pitch with probability 0.6; otherwise uniform over the scale.  `none`
models the `IndexError` of `rng.choice` on an empty scale list. -/
def pick_scale_pitch (scale_pitches : List ℤ) (previous_pitch : Option ℤ)
    (_lowest_midi highest_midi : ℤ) (octave_up_chance : ℚ) (s : RState) :
    Option ((ℤ × Bool) × RState) :=
  let uniformSel : RState → Option ((ℤ × Bool) × RState) := fun st =>
    (pyChoice scale_pitches st).map (fun pr => ((pr.1, false), pr.2))
  let normalSel : RState → Option ((ℤ × Bool) × RState) := fun st =>
    match previous_pitch with
    | some prev =>
      if prev ∈ scale_pitches then
        let prev_idx := scale_pitches.indexOf prev
        let neighbors := [-2, -1, 1, 2].foldr
          (fun (offset : ℤ) acc =>
            let idx := (prev_idx : ℤ) + offset
            if h : 0 ≤ idx ∧ idx.toNat < scale_pitches.length then
              scale_pitches.get ⟨idx.toNat, h.2⟩ :: acc
            else acc)
          []
        match neighbors with
        | [] => uniformSel st
        | a :: rest =>
          let (q2, st2) := pyRandom st
          if q2 < 6/10 then
            let (p, st3) := pyChoiceNE a rest st2
            some ((p, false), st3)
          else uniformSel st2
      else uniformSel st
    | none => uniformSel st
  match previous_pitch with
  | some prev =>
    let (q, s1) := pyRandom s
    if q < octave_up_chance then
      if prev + 12 ≤ highest_midi - 2 then
        let candidate := prev + 12
        if candidate ∈ scale_pitches ∧ candidate ≤ highest_midi then
          some ((candidate, true), s1)
        else normalSel s1
      else normalSel s1
    else normalSel s1
  | none => normalSel s

/-- `ensure_pitch_in_range`: keep an in-range pitch; otherwise resample
uniformly from the in-range scale pitches; otherwise clamp. -/
def ensure_pitch_in_range (pitch : ℤ) (scale_pitches : List ℤ)
    (lowest_midi highest_midi : ℤ) (s : RState) : ℤ × RState :=
  if lowest_midi ≤ pitch ∧ pitch ≤ highest_midi then (pitch, s)
  else
    let valid := scale_pitches.filter
      (fun p => decide (lowest_midi ≤ p) && decide (p ≤ highest_midi))
    match valid with
    | [] => (max lowest_midi (min highest_midi pitch), s)
    | a :: rest => pyChoiceNE a rest s

/-- `is_pitch_in_scale`. -/
def is_pitch_in_scale (pitch : ℤ) (scale_pitches : List ℤ) : Bool :=
  decide (pitch ∈ scale_pitches)

end songMaking

/-! ## `songMaking/harmony.py` -/

namespace songMaking

/-- `HarmonySpec`: the complete musical context for one melody. -/
structure HarmonySpec where
  tonic_note : String
  scale_pattern : List ℤ
  chord_sequence : List String
  beats_per_minute : ℤ
  meter_numerator : ℤ
  meter_denominator : ℤ
  lowest_midi : ℤ
  highest_midi : ℤ
  subdivision_unit : ℚ
  total_measures : ℤ
deriving DecidableEq

/-- The option bag handed to `choose_harmony` (`harmony_config` in
`cli.py`): `min_bpm`, `max_bpm` and the `bars` override. -/
structure HarmonyOptions where
  min_bpm : Option ℤ
  max_bpm : Option ℤ
  bars : Option ℤ
deriving DecidableEq

/-- `scale_library` in insertion order. -/
def scale_library : List (String × List ℤ) :=
  [("ionian", [0, 2, 4, 5, 7, 9, 11]),
   ("dorian", [0, 2, 3, 5, 7, 9, 10]),
   ("phrygian", [0, 1, 3, 5, 7, 8, 10]),
   ("lydian", [0, 2, 4, 6, 7, 9, 11]),
   ("mixolydian", [0, 2, 4, 5, 7, 9, 10]),
   ("aeolian", [0, 2, 3, 5, 7, 8, 10]),
   ("harmonic_minor", [0, 2, 3, 5, 7, 8, 11]),
   ("melodic_minor", [0, 2, 3, 5, 7, 9, 11]),
   ("pentatonic_major", [0, 2, 4, 7, 9]),
   ("pentatonic_minor", [0, 3, 5, 7, 10])]

/-- Draw `n` uniform choices in sequence (the chord-progression list
comprehension). -/
def pyChoiceList {α : Type} (a : α) (rest : List α) :
    ℕ → RState → List α × RState
  | 0, s => ([], s)
  | n + 1, s =>
    let (x, s1) := pyChoiceNE a rest s
    let (xs, s2) := pyChoiceList a rest n s1
    (x :: xs, s2)

/-- `choose_harmony`: derive a full harmonic framework from the seed.
Note that of the option bag only `min_bpm` and `max_bpm` are ever read;
the `bars` entry supplied by the CLI is never consulted. -/
def choose_harmony (mk : ℤ → RState) (rng_seed : ℤ)
    (options : HarmonyOptions) : Option HarmonySpec := do
  let s0 := mk rng_seed
  let (note_name, s1) := pyChoiceNE "C" ["D", "E", "F", "G", "A", "B"] s0
  let (accidental, s2) := pyChoiceNE "" ["b", "#"] s1
  let root := note_name ++ accidental
  let (chosen_mode, s3) :=
    pyChoiceNE "ionian" (scale_library.map Prod.fst).tail s2
  let intervals := ((scale_library.lookup chosen_mode).getD [])
  let (prog_length, s4) ← pyRandint 4 8 s3
  let (progression, s5) :=
    pyChoiceList "I" ["ii", "iii", "IV", "V", "vi", "vii"] prog_length.toNat s4
  let (tempo, s6) ←
    pyRandint (options.min_bpm.getD 80) (options.max_bpm.getD 140) s5
  let (meter, s7) := pyChoiceNE ((3 : ℤ), (4 : ℤ)) [(4, 4), (5, 4), (6, 8), (7, 8)] s6
  let (octave_start, s8) ← pyRandint 3 5 s7
  let (range_span, s9) ← pyRandint 14 24 s8
  let low_note := (octave_start + 1) * 12
  let high_note := low_note + range_span
  let (rhythm_grain, s10) := pyChoiceNE ((1 : ℚ)/16) [1/8, 1/4, 1/2] s9
  let (measure_count, _) := pyChoiceNE (4 : ℤ) [8, 12, 16] s10
  pure ⟨root, intervals, progression, tempo, meter.1, meter.2,
    low_note, high_note, rhythm_grain, measure_count⟩

end songMaking

/-! ## `songmaking/structure.py` and `songmaking/structure_utils.py` -/

namespace songmaking

/-- `MelodyStructureSpec`.  The rhythm profile keeps the dict's insertion
order as an association list. -/
structure MelodyStructureSpec where
  repeat_unit_beats : Option ℚ
  rhythm_profile : Option (List (ℚ × ℚ))
  allow_motif_variation : Bool
  variation_probability : ℚ
deriving DecidableEq

/-- The three variation kinds, in the order of the source's choice list. -/
inductive VariationKind : Type
  | transpose
  | neighborTone
  | inversion
deriving DecidableEq

/-- Inner loop of the inversion variation: walk the adjacent pairs of the
original sequence carrying the last emitted pitch (`inverted[-1]`). -/
def invert_walk : ℤ → List (ℤ × ℤ) → List ℤ
  | _, [] => []
  | lastv, (prev, cur) :: rest =>
    if 0 < cur then
      let nv := max 0 (lastv - (cur - prev))
      nv :: invert_walk nv rest
    else 0 :: invert_walk 0 rest

/-- `_apply_subtle_variation`: transpose all sounding pitches by a small
interval, perturb one sounding pitch by a semitone, or invert the contour
around the first pitch. -/
def apply_subtle_variation (pitches : List ℤ) (s : RState) :
    List ℤ × RState :=
  let (variation_type, s1) :=
    pyChoiceNE VariationKind.transpose
      [VariationKind.neighborTone, VariationKind.inversion] s
  match variation_type with
  | VariationKind.transpose =>
    let (offset, s2) := pyChoiceNE (-2 : ℤ) [-1, 1, 2] s1
    ((pitches.map fun p => if 0 < p then max 0 (p + offset) else 0), s2)
  | VariationKind.neighborTone =>
    if 1 < pitches.length then
      -- rng.randint(0, len(pitches) - 1): bounds are valid here
      let (idxZ, s2) := pyRandintI 0 ((pitches.length : ℤ) - 1) s1
      let idx := idxZ.toNat
      if 0 < pitches.getD idx 0 then
        let (delta, s3) := pyChoiceNE (-1 : ℤ) [1] s2
        ((pitches.set idx (pitches.getD idx 0 + delta)), s3)
      else (pitches, s2)
    else (pitches, s1)
  | VariationKind.inversion =>
    if pitches.length < 2 then (pitches, s1)
    else
      match pitches with
      | [] => (pitches, s1)
      | anchor :: _ =>
        ((anchor :: invert_walk anchor (pitches.zip pitches.tail)), s1)

/-- Motif extraction: the leading elements whose accumulated duration
stays below `repeat_unit_beats - 0.01` (the `while` loop over
`pitches[idx]`/`durations[idx]`, phrased over the zipped sequence). -/
def extract_unit (repeat_unit_beats : ℚ) :
    List (ℤ × ℚ) → ℚ → List (ℤ × ℚ)
  | [], _ => []
  | (p, d) :: rest, accumulated_beats =>
    if accumulated_beats < repeat_unit_beats - 1/100 then
      (p, d) :: extract_unit repeat_unit_beats rest (accumulated_beats + d)
    else []

/-- The rebuild loop of `apply_motif_repetition`: one motif copy per
repeat index, the first copy always verbatim, later copies varied with
probability `variation_probability` when variation is allowed. -/
def rebuild_repeats (unit_pitches : List ℤ) (unit_durations : List ℚ)
    (allow_variation : Bool) (variation_probability : ℚ) :
    ℕ → ℕ → List ℤ → List ℚ → RState → (List ℤ × List ℚ) × RState
  | 0, _, accP, accD, s => ((accP, accD), s)
  | k + 1, repeat_idx, accP, accD, s =>
    if repeat_idx = 0 ∨ allow_variation = false then
      rebuild_repeats unit_pitches unit_durations allow_variation
        variation_probability k (repeat_idx + 1)
        (accP ++ unit_pitches) (accD ++ unit_durations) s
    else
      let (q, s1) := pyRandom s
      if variation_probability ≤ q then
        rebuild_repeats unit_pitches unit_durations allow_variation
          variation_probability k (repeat_idx + 1)
          (accP ++ unit_pitches) (accD ++ unit_durations) s1
      else
        let (varied, s2) := apply_subtle_variation unit_pitches s1
        rebuild_repeats unit_pitches unit_durations allow_variation
          variation_probability k (repeat_idx + 1)
          (accP ++ varied) (accD ++ unit_durations) s2

/-- `apply_motif_repetition`: extract the motif, tile it
`int(total_beats / repeat_unit_beats)` times (with optional variation),
and trim both lists to the original element count when the rebuild is
longer.  (The source also computes `trim_beats`, which it never uses.) -/
def apply_motif_repetition (pitches : List ℤ) (durations : List ℚ)
    (repeat_unit_beats : ℚ) (allow_variation : Bool)
    (variation_probability : ℚ) (s : RState) :
    (List ℤ × List ℚ) × RState :=
  if pitches = [] ∨ repeat_unit_beats ≤ 0 then ((pitches, durations), s)
  else
    let unit := extract_unit repeat_unit_beats (pitches.zip durations) 0
    let unit_pitches := unit.map Prod.fst
    let unit_durations := unit.map Prod.snd
    if unit_pitches = [] then ((pitches, durations), s)
    else
      let total_beats := durations.sum
      let num_repeats := pyInt (total_beats / repeat_unit_beats)
      if num_repeats < 2 then ((pitches, durations), s)
      else
        let ((new_pitches, new_durations), s1) :=
          rebuild_repeats unit_pitches unit_durations allow_variation
            variation_probability num_repeats.toNat 0 [] [] s
        if durations.length < new_durations.length then
          ((new_pitches.take durations.length,
            new_durations.take durations.length), s1)
        else ((new_pitches, new_durations), s1)

/-- `calculate_repeat_count`. -/
def calculate_repeat_count (_pitches : List ℤ) (durations : List ℚ)
    (unit_beats : ℚ) : ℤ :=
  if unit_beats ≤ 0 ∨ durations = [] then 0
  else pyInt (durations.sum / unit_beats)

end songmaking

/-! ## Generation strategies: shared pieces -/

namespace songMaking

/-- The generation `config` dict: only these keys are ever read (through
`config.get(key, default)`), so it is embedded as a record of optional
fields with the defaults applied at each read site. -/
structure GenConfig where
  rest_probability : Option ℚ
  octave_up_chance : Option ℚ
  ngram_order : Option ℕ
  candidate_count : Option ℕ
  score_threshold : Option ℚ
deriving DecidableEq

/-- The numeric fields of the generators' `debug_stats` dict (the
string-keyed duration histogram is diagnostic formatting and is not
modelled). -/
structure DebugStats where
  scale_out_rejections : ℕ
  octave_up_events : ℕ
  total_beats : ℚ
  repeat_count : ℤ
deriving DecidableEq

/-- `list(range(lo, hi + 1))`: the chromatic fallback range. -/
def int_range (lo hi : ℤ) : List ℤ :=
  (List.range (hi + 1 - lo).toNat).map (fun (i : ℕ) => lo + (i : ℤ))

/-- The duration selection of one loop iteration: weighted by the rhythm
profile when one is active (falling back to `choose_duration` when the
profile-chosen value would overshoot), plain `choose_duration` otherwise. -/
def duration_step (profile : Option (List (ℚ × ℚ))) (allowed_durations : List ℚ)
    (remaining : ℚ) (s : RState) : Option (ℚ × RState) :=
  match profile with
  | some prof =>
    match pyChoicesW (prof.map Prod.fst) (prof.map Prod.snd) s with
    | none => none
    | some (dur0, s1) =>
      if remaining + 1/1000 < dur0 then
        some (choose_duration remaining allowed_durations s1)
      else some (dur0, s1)
  | none => some (choose_duration remaining allowed_durations s)

/-- The `while elapsed_beats < total_beats` generation loop shared by
`songMaking/generators/random.py` and
`src/songmaking/generators/random.py`; the latter adds the
rhythm-profile-weighted duration branch, selected here by `profile`
(`none` reproduces the plain copy verbatim).  `fuel` bounds the number of
iterations; `none` is returned when fuel runs out or a `rng.choice` on an
empty sequence would raise. -/
def melody_loop (scale_pitches : List ℤ) (allowed_durations : List ℚ)
    (profile : Option (List (ℚ × ℚ))) (lowest_midi highest_midi : ℤ)
    (octave_up_chance rest_chance total_beats : ℚ) :
    ℕ → List ℤ → List ℚ → ℚ → ℕ → RState →
    Option (List ℤ × List ℚ × ℕ × RState)
  | 0, _, _, _, _, _ => none
  | fuel + 1, pitches, durations, elapsed_beats, octave_events, s =>
    if elapsed_beats < total_beats then
      let remaining := total_beats - elapsed_beats
      match duration_step profile allowed_durations remaining s with
      | none => none
      | some (dur, s1) =>
        let (q, s2) := pyRandom s1
        if q < rest_chance then
          melody_loop scale_pitches allowed_durations profile lowest_midi
            highest_midi octave_up_chance rest_chance total_beats fuel
            (pitches ++ [0]) (durations ++ [dur])
            (snap_to_grid (elapsed_beats + dur) GRID_RESOLUTION)
            octave_events s2
        else
          let prev_pitch : Option ℤ :=
            match pitches.getLast? with
            | some p => if p ≠ 0 then some p else none
            | none => none
          match pick_scale_pitch scale_pitches prev_pitch lowest_midi
              highest_midi octave_up_chance s2 with
          | none => none
          | some ((pitch1, octave_jump), s3) =>
            let (pitch2, s4) := ensure_pitch_in_range pitch1 scale_pitches
              lowest_midi highest_midi s3
            melody_loop scale_pitches allowed_durations profile lowest_midi
              highest_midi octave_up_chance rest_chance total_beats fuel
              (pitches ++ [pitch2]) (durations ++ [dur])
              (snap_to_grid (elapsed_beats + dur) GRID_RESOLUTION)
              (octave_events + if octave_jump then 1 else 0) s4
    else some (pitches, durations, octave_events, s)

/-- `songMaking/generators/random.py::generate_random_melody` (the plain
three-argument copy).  `ambient` stands for the process-global `random`
module state, which the source never reads: every draw comes from
`random.Random(rng_seed)`. -/
def generate_random_melody (fuel : ℕ) (mk : ℤ → RState)
    (spec : HarmonySpec) (rng_seed : ℤ) (config : GenConfig)
    (_ambient : RState) : Option (List ℤ × List ℚ × DebugStats) :=
  let rng := mk rng_seed
  let scale0 := build_scale_pitch_set spec.tonic_note spec.scale_pattern
    spec.lowest_midi spec.highest_midi
  let scale_pitches :=
    if scale0 = [] then int_range spec.lowest_midi spec.highest_midi
    else scale0
  let beats_per_bar := (spec.meter_numerator : ℚ) *
    (4 / (spec.meter_denominator : ℚ))
  let total_beats := beats_per_bar * (spec.total_measures : ℚ)
  let allowed_durations := get_discrete_duration_values beats_per_bar
  let octave_up_chance := config.octave_up_chance.getD (3/100)
  let rest_chance := config.rest_probability.getD (15/100)
  match melody_loop scale_pitches allowed_durations none spec.lowest_midi
      spec.highest_midi octave_up_chance rest_chance total_beats fuel
      [] [] 0 0 rng with
  | none => none
  | some (pitches, durations, octave_events, _) =>
    some (pitches, durations, ⟨0, octave_events, durations.sum, 0⟩)

end songMaking

namespace songmaking

open songMaking

/-- `src/songmaking/generators/random.py::generate_random_melody`: the
copy extended with an optional `MelodyStructureSpec` (rhythm-profile
weighted durations during the loop, motif repetition afterwards). -/
def generate_random_melody (fuel : ℕ) (mk : ℤ → RState)
    (spec : HarmonySpec) (rng_seed : ℤ) (config : GenConfig)
    (structure_spec : Option MelodyStructureSpec) :
    Option (List ℤ × List ℚ × DebugStats) :=
  let rng := mk rng_seed
  let scale0 := build_scale_pitch_set spec.tonic_note spec.scale_pattern
    spec.lowest_midi spec.highest_midi
  let scale_pitches :=
    if scale0 = [] then int_range spec.lowest_midi spec.highest_midi
    else scale0
  let beats_per_bar := (spec.meter_numerator : ℚ) *
    (4 / (spec.meter_denominator : ℚ))
  let total_beats := beats_per_bar * (spec.total_measures : ℚ)
  -- `if structure_spec and structure_spec.rhythm_profile:` (an empty
  -- profile dict is falsy)
  let profile : Option (List (ℚ × ℚ)) :=
    match structure_spec with
    | some st =>
      match st.rhythm_profile with
      | some prof => if prof = [] then none else some prof
      | none => none
    | none => none
  let allowed_durations :=
    match profile with
    | some prof => prof.map Prod.fst
    | none => get_discrete_duration_values beats_per_bar
  let octave_up_chance := config.octave_up_chance.getD (3/100)
  let rest_chance := config.rest_probability.getD (15/100)
  match melody_loop scale_pitches allowed_durations profile spec.lowest_midi
      spec.highest_midi octave_up_chance rest_chance total_beats fuel
      [] [] 0 0 rng with
  | none => none
  | some (pitches0, durations0, octave_events, s1) =>
    -- `if structure_spec and structure_spec.repeat_unit_beats:` (0.0 is
    -- falsy)
    match structure_spec with
    | some st =>
      match st.repeat_unit_beats with
      | some u =>
        if u ≠ 0 then
          let ((pitches, durations), _) := apply_motif_repetition pitches0
            durations0 u st.allow_motif_variation st.variation_probability s1
          some (pitches, durations,
            ⟨0, octave_events, durations.sum,
              calculate_repeat_count pitches durations u⟩)
        else some (pitches0, durations0, ⟨0, octave_events, durations0.sum, 0⟩)
      | none => some (pitches0, durations0, ⟨0, octave_events, durations0.sum, 0⟩)
    | none => some (pitches0, durations0, ⟨0, octave_events, durations0.sum, 0⟩)

end songmaking

/-! ## `songMaking/generators/markov.py` -/

namespace songMaking

/-- One `self.transitions[context].append(next_note)` on the
insertion-ordered association list modelling the `defaultdict`. -/
def addTransition (t : List (List ℤ × List ℤ)) (ctx : List ℤ) (nxt : ℤ) :
    List (List ℤ × List ℤ) :=
  match t with
  | [] => [(ctx, [nxt])]
  | (c, ns) :: rest =>
    if c = ctx then (c, ns ++ [nxt]) :: rest
    else (c, ns) :: addTransition rest ctx nxt

/-- `train_from_patterns` restricted to one sequence: record the successor
of every length-`order` window. -/
def train_from_sequence (order : ℕ) (t : List (List ℤ × List ℤ))
    (sequence : List ℤ) : List (List ℤ × List ℤ) :=
  (List.range (sequence.length - order)).foldl
    (fun acc idx =>
      addTransition acc ((sequence.drop idx).take order)
        (sequence.getD (idx + order) 0))
    t

/-- `PitchTransitionModel.train_from_patterns`. -/
def train_from_patterns (order : ℕ) (t : List (List ℤ × List ℤ))
    (training_sequences : List (List ℤ)) : List (List ℤ × List ℤ) :=
  training_sequences.foldl (train_from_sequence order) t

/-- `PitchTransitionModel.predict_next`: sample from the successors of the
context if it was observed (and has successors), else from the pool of all
observed successors, else fall back to middle C. -/
def predict_next (transitions : List (List ℤ × List ℤ)) (context : List ℤ)
    (s : RState) : ℤ × RState :=
  match transitions.lookup context with
  | some (n :: ns) => pyChoiceNE n ns s
  | _ =>
    let all_notes := (transitions.map Prod.snd).flatten
    match all_notes with
    | [] => (60, s)
    | a :: rest => pyChoiceNE a rest s

/-- The random-walk extension of `_create_training_data` pattern type 4:
append `n` further notes, each within ±2 scale indices of the last. -/
def walk_extend (scale_notes : List ℤ) :
    ℕ → ℤ → RState → List ℤ × RState
  | 0, _, s => ([], s)
  | n + 1, lastp, s =>
    let current_idx := scale_notes.indexOf lastp
    let (move, s1) := pyChoiceNE (-2 : ℤ) [-1, 0, 1, 2] s
    let next_idx := max 0 (min ((scale_notes.length : ℤ) - 1)
      ((current_idx : ℤ) + move))
    let nxt := scale_notes.getD next_idx.toNat 0
    let (rest, s2) := walk_extend scale_notes n nxt s1
    (nxt :: rest, s2)

/-- The ten random walks of `_create_training_data` (walk length drawn
from `randint(6, 10)`, whose bounds are always valid). -/
def make_walks (scale_notes : List ℤ) :
    ℕ → RState → Option (List (List ℤ) × RState)
  | 0, s => some ([], s)
  | n + 1, s =>
    let (wl, s1) := pyRandintI 6 10 s
    match pyChoice scale_notes s1 with
    | none => none
    | some (w0, s2) =>
      let (tailw, s3) := walk_extend scale_notes (wl.toNat - 1) w0 s2
      match make_walks scale_notes n s3 with
      | none => none
      | some (ws, s4) => some ((w0 :: tailw) :: ws, s4)

/-- `_create_training_data`: scale runs, arpeggios, neighbour figures and
ten bounded random walks over the scale set. -/
def create_training_data (spec : HarmonySpec) (s : RState) :
    Option (List (List ℤ) × RState) :=
  let scale_notes0 := build_scale_pitch_set spec.tonic_note
    spec.scale_pattern spec.lowest_midi spec.highest_midi
  let scale_notes :=
    if scale_notes0 = [] then int_range spec.lowest_midi spec.highest_midi
    else scale_notes0
  let t1 := (List.range (scale_notes.length - 5)).foldr
    (fun i acc =>
      let ascending := (scale_notes.drop i).take 5
      ascending :: ascending.reverse :: acc)
    []
  let t2 := (List.range ((scale_notes.length - 8 + 1) / 2)).map
    (fun j =>
      let start := j * 2
      (List.range 4).map (fun i => scale_notes.getD (start + i * 2) 0))
  let t3 := (List.range (scale_notes.length - 1 - 1)).map
    (fun j =>
      let c := j + 1
      [scale_notes.getD c 0, scale_notes.getD (c + 1) 0,
       scale_notes.getD c 0, scale_notes.getD (c - 1) 0,
       scale_notes.getD c 0])
  match make_walks scale_notes 10 s with
  | none => none
  | some (walks, s1) => some (t1 ++ t2 ++ t3 ++ walks, s1)

/-- `_quantize_to_nearest_scale_note`: nearest scale member by absolute
distance (first minimum, as Python's `min`); `none` models `min` of an
empty sequence. -/
def quantize_to_nearest_scale_note (pitch : ℤ) (scale_pitches : List ℤ) :
    Option ℤ :=
  if pitch ∈ scale_pitches then some pitch
  else
    match scale_pitches with
    | [] => none
    | a :: rest =>
      some (rest.foldl
        (fun best p => if |p - pitch| < |best - pitch| then p else best) a)

/-- `n` successive `rng.choice` draws from a list (the initial Markov
context). -/
def pyChoiceSeq {α : Type} (l : List α) :
    ℕ → RState → Option (List α × RState)
  | 0, s => some ([], s)
  | n + 1, s =>
    match pyChoice l s with
    | none => none
    | some (x, s1) =>
      match pyChoiceSeq l n s1 with
      | none => none
      | some (xs, s2) => some (x :: xs, s2)

/-- The `while elapsed_beats < total_beats` loop of
`generate_markov_melody`: append a duration, and while more beats are
needed predict the next pitch from the model, quantize it to the scale and
clamp it to range. -/
def markov_loop (transitions : List (List ℤ × List ℤ)) (model_order : ℕ)
    (scale_notes : List ℤ) (allowed_durations : List ℚ)
    (lowest_midi highest_midi : ℤ) (total_beats : ℚ) :
    ℕ → List ℤ → List ℚ → ℚ → ℕ → RState →
    Option (List ℤ × List ℚ × ℕ × RState)
  | 0, _, _, _, _, _ => none
  | fuel + 1, pitches, durations, elapsed_beats, rejections, s =>
    if elapsed_beats < total_beats then
      let remaining := total_beats - elapsed_beats
      let (dur, s1) := choose_duration remaining allowed_durations s
      let durations2 := durations ++ [dur]
      let elapsed2 := snap_to_grid (elapsed_beats + dur) GRID_RESOLUTION
      if elapsed2 < total_beats then
        -- `pitches[-model_order:]` (the whole list when the slice index is 0)
        let context :=
          if model_order = 0 then pitches
          else pitches.drop (pitches.length - model_order)
        let (next0, s2) := predict_next transitions context s1
        let quantized : Option (ℤ × ℕ) :=
          if next0 ∈ scale_notes then some (next0, rejections)
          else (quantize_to_nearest_scale_note next0 scale_notes).map
            (fun p => (p, rejections + 1))
        match quantized with
        | none => none
        | some (next1, rejections2) =>
          let (next2, s3) := ensure_pitch_in_range next1 scale_notes
            lowest_midi highest_midi s2
          markov_loop transitions model_order scale_notes allowed_durations
            lowest_midi highest_midi total_beats fuel
            (pitches ++ [next2]) durations2 elapsed2 rejections2 s3
      else
        markov_loop transitions model_order scale_notes allowed_durations
          lowest_midi highest_midi total_beats fuel
          pitches durations2 elapsed2 rejections s1
    else some (pitches, durations, rejections, s)

/-- `songMaking/generators/markov.py::generate_markov_melody`.  Note that
`octave_up_chance` is read from the config (source line 165) but never
used afterwards; `ambient` again stands for the untouched process-global
`random` state. -/
def generate_markov_melody (fuel : ℕ) (mk : ℤ → RState)
    (spec : HarmonySpec) (rng_seed : ℤ) (config : GenConfig)
    (_ambient : RState) : Option (List ℤ × List ℚ × DebugStats) :=
  let rng := mk rng_seed
  let model_order := config.ngram_order.getD 2
  match create_training_data spec rng with
  | none => none
  | some (training_patterns, s1) =>
    let transitions := train_from_patterns model_order [] training_patterns
    let beats_per_bar := (spec.meter_numerator : ℚ) *
      (4 / (spec.meter_denominator : ℚ))
    let total_beats := beats_per_bar * (spec.total_measures : ℚ)
    let allowed_durations := get_discrete_duration_values beats_per_bar
    let scale_notes0 := build_scale_pitch_set spec.tonic_note
      spec.scale_pattern spec.lowest_midi spec.highest_midi
    let scale_notes :=
      if scale_notes0 = [] then int_range spec.lowest_midi spec.highest_midi
      else scale_notes0
    let _octave_up_chance := config.octave_up_chance.getD (3/100)
    match pyChoiceSeq scale_notes model_order s1 with
    | none => none
    | some (pitches0, s2) =>
      match markov_loop transitions model_order scale_notes
          allowed_durations spec.lowest_midi spec.highest_midi total_beats
          fuel pitches0 [] 0 0 s2 with
      | none => none
      | some (pitches, durations, rejections, _) =>
        let pitches2 := pitches.take durations.length
        some (pitches2, durations, ⟨rejections, 0, durations.sum, 0⟩)

end songMaking

/-! ## `songMaking/eval.py` -/

namespace songMaking

/-- Metric dictionary keys. -/
inductive MetricName : Type
  | complexity
  | contour
  | smoothness
  | variety
  | rhythm
  | coherence
  | self_similarity
  | rhythm_alignment
deriving DecidableEq

/-- Absolute sizes of the adjacent intervals. -/
def interval_jumps (midi_notes : List ℤ) : List ℤ :=
  (midi_notes.zip midi_notes.tail).map (fun pr => |pr.2 - pr.1|)

/-- `compute_interval_complexity`: distinct interval sizes over a capped
denominator. -/
def compute_interval_complexity (midi_notes : List ℤ) : Option ℚ :=
  if midi_notes.length < 2 then some 0
  else
    let jumps := interval_jumps midi_notes
    if jumps = [] then some 0
    else
      let unique_intervals := jumps.dedup.length
      let max_possible := min 12 jumps.length
      pyDiv (unique_intervals : ℚ) ((max max_possible 1 : ℕ) : ℚ)

/-- `measure_contour_balance`: `min(up, down) / total_moves`, 0.5 for
fewer than two notes, 0 when there is no directional motion at all. -/
def measure_contour_balance (midi_notes : List ℤ) : Option ℚ :=
  if midi_notes.length < 2 then some (1/2)
  else
    let pairs := midi_notes.zip midi_notes.tail
    let up_moves := (pairs.filter (fun pr => decide (pr.1 < pr.2))).length
    let down_moves := (pairs.filter (fun pr => decide (pr.2 < pr.1))).length
    let total_moves := up_moves + down_moves
    if total_moves = 0 then some 0
    else pyDiv ((min up_moves down_moves : ℕ) : ℚ) (total_moves : ℚ)

/-- `check_leap_smoothness`: fraction of intervals not exceeding
`max_jump` semitones. -/
def check_leap_smoothness (midi_notes : List ℤ) (max_jump : ℤ) : Option ℚ :=
  if midi_notes.length < 2 then some 1
  else
    let jumps := interval_jumps midi_notes
    let violations := (jumps.filter (fun j => decide (max_jump < j))).length
    (pyDiv (violations : ℚ) (jumps.length : ℚ)).map (fun r => 1 - r)

/-- `assess_pitch_variety`: distinct pitch count normalised to 7. -/
def assess_pitch_variety (midi_notes : List ℤ) : Option ℚ :=
  if midi_notes = [] then some 0
  else some (min ((midi_notes.dedup.length : ℚ) / 7) 1)

/-- `evaluate_rhythmic_entropy`: distinct duration count normalised
to 5. -/
def evaluate_rhythmic_entropy (durations : List ℚ) : Option ℚ :=
  if durations.length < 2 then some 0
  else some (min ((durations.dedup.length : ℚ) / 5) 1)

/-- Matches and comparisons over all unordered pairs of a list. -/
def countPairs {α : Type} [DecidableEq α] : List α → ℕ × ℕ
  | [] => (0, 0)
  | x :: xs =>
    let (m, c) := countPairs xs
    (m + xs.count x, c + xs.length)

/-- `compute_phrase_coherence`: fraction of exactly matching
non-overlapping 4-note phrase pairs. -/
def compute_phrase_coherence (midi_notes : List ℤ) (phrase_len : ℕ) :
    Option ℚ :=
  if phrase_len = 0 then none
  else if midi_notes.length < phrase_len * 2 then some (1/2)
  else
    let phrases := (List.range
        ((midi_notes.length - phrase_len) / phrase_len + 1)).map
      (fun k => (midi_notes.drop (k * phrase_len)).take phrase_len)
    if phrases.length < 2 then some (1/2)
    else
      let (match_count, comparisons) := countPairs phrases
      if comparisons = 0 then some (1/2)
      else pyDiv (match_count : ℚ) (comparisons : ℚ)

/-- `measure_self_similarity`: average positional match ratio between
consecutive repeat-unit-length segments (all divisions guarded in the
source, so the function is total). -/
def measure_self_similarity (midi_notes : List ℤ) (durations : List ℚ)
    (unit_beats : ℚ) : ℚ :=
  if midi_notes.length < 2 ∨ unit_beats ≤ 0 then 0
  else
    let seg := (midi_notes.zip durations).foldl
      (fun (st : List (List ℤ) × List ℤ × ℚ) pr =>
        let (units, cur, beats) := st
        let cur2 := cur ++ [pr.1]
        let beats2 := beats + pr.2
        if unit_beats - 1/100 ≤ beats2 then (units ++ [cur2], [], 0)
        else (units, cur2, beats2))
      ([], [], 0)
    let units := seg.1
    if units.length < 2 then 0
    else
      let similarities := (units.zip units.tail).map
        (fun pr =>
          if pr.1 = pr.2 then (1 : ℚ)
          else
            let min_len := min pr.1.length pr.2.length
            if min_len = 0 then 0
            else
              let match_count := ((pr.1.zip pr.2).filter
                (fun xy => decide (xy.1 = xy.2))).length
              (match_count : ℚ) / (min_len : ℚ))
      if similarities = [] then 0
      else similarities.sum / (similarities.length : ℚ)

/-- Count occurrences in an insertion-ordered association list. -/
def bumpCount (l : List (ℚ × ℕ)) (k : ℚ) : List (ℚ × ℕ) :=
  match l with
  | [] => [(k, 1)]
  | (d, c) :: rest =>
    if d = k then (d, c + 1) :: rest else (d, c) :: bumpCount rest k

/-- `measure_rhythm_profile_alignment`: one minus half the L1 distance
between the target profile and the actual distribution after snapping each
duration to the nearest profile key. -/
def measure_rhythm_profile_alignment (durations : List ℚ)
    (target_profile : List (ℚ × ℚ)) : ℚ :=
  if durations = [] ∨ target_profile = [] then 0
  else
    let keys := target_profile.map Prod.fst
    let total_count := durations.length
    let actual_counts := durations.foldl
      (fun acc dur =>
        let nearest :=
          match keys with
          | [] => dur
          | k0 :: krest =>
            krest.foldl
              (fun best k => if |k - dur| < |best - dur| then k else best) k0
        bumpCount acc nearest)
      []
    let actual_proportions := actual_counts.map
      (fun pr => (pr.1, (pr.2 : ℚ) / (total_count : ℚ)))
    let all_durations := (keys ++ actual_proportions.map Prod.fst).dedup
    let total_difference := (all_durations.map
      (fun d =>
        let target_prop := (target_profile.lookup d).getD 0
        let actual_prop := (actual_proportions.lookup d).getD 0
        |target_prop - actual_prop|)).sum
    let similarity := 1 - total_difference / 2
    max 0 (min 1 similarity)

/-- Default metric weights, in dict insertion order. -/
def default_weights : List (MetricName × ℚ) :=
  [(MetricName.complexity, 3/20), (MetricName.contour, 1/5),
   (MetricName.smoothness, 1/4), (MetricName.variety, 1/5),
   (MetricName.rhythm, 1/10), (MetricName.coherence, 1/10)]

/-- `aggregate_melody_score`: the six base metrics, the structural
metrics when a `MelodyStructureSpec` is supplied, and their weighted sum
with weights renormalised over the metrics present. -/
def aggregate_melody_score (midi_notes : List ℤ) (durations : List ℚ)
    (weights0 : Option (List (MetricName × ℚ)))
    (structure_spec : Option songmaking.MelodyStructureSpec) :
    Option (ℚ × List (MetricName × ℚ)) := do
  let weights1 := weights0.getD default_weights
  let c ← compute_interval_complexity midi_notes
  let ct ← measure_contour_balance midi_notes
  let sm ← check_leap_smoothness midi_notes 7
  let v ← assess_pitch_variety midi_notes
  let rh ← evaluate_rhythmic_entropy durations
  let co ← compute_phrase_coherence midi_notes 4
  let metrics0 := [(MetricName.complexity, c), (MetricName.contour, ct),
    (MetricName.smoothness, sm), (MetricName.variety, v),
    (MetricName.rhythm, rh), (MetricName.coherence, co)]
  -- `if structure_spec.repeat_unit_beats is not None`
  let stage1 :=
    match structure_spec with
    | some st =>
      match st.repeat_unit_beats with
      | some u =>
        (metrics0 ++ [(MetricName.self_similarity,
            measure_self_similarity midi_notes durations u)],
         if (weights1.lookup MetricName.self_similarity) = none then
           weights1 ++ [(MetricName.self_similarity, 3/20)]
         else weights1)
      | none => (metrics0, weights1)
    | none => (metrics0, weights1)
  -- `if structure_spec.rhythm_profile is not None`
  let stage2 :=
    match structure_spec with
    | some st =>
      match st.rhythm_profile with
      | some prof =>
        (stage1.1 ++ [(MetricName.rhythm_alignment,
            measure_rhythm_profile_alignment durations prof)],
         if (stage1.2.lookup MetricName.rhythm_alignment) = none then
           stage1.2 ++ [(MetricName.rhythm_alignment, 3/20)]
         else stage1.2)
      | none => stage1
    | none => stage1
  let metrics := stage2.1
  let weights := stage2.2
  let total_weight := (metrics.map
    (fun kv => (weights.lookup kv.1).getD 0)).sum
  let normalized : MetricName → ℚ := fun k =>
    if 0 < total_weight then (weights.lookup k).getD 0 / total_weight
    else (weights.lookup k).getD 0
  let total := (metrics.map (fun kv => kv.2 * normalized kv.1)).sum
  pure (total, metrics)

end songMaking

/-! ## `songMaking/pitch_stats.py` and the CLI retry loop -/

namespace songMaking

/-- `calculate_mean_pitch`: mean of the sounding pitches, `None` when
there are none. -/
def calculate_mean_pitch (midi_notes : List ℤ) : Option ℚ :=
  let sounding_notes := midi_notes.filter (fun p => decide (0 < p))
  if sounding_notes = [] then none
  else some (((sounding_notes.sum : ℤ) : ℚ) / (sounding_notes.length : ℚ))

/-- `check_pitch_constraint`: the mean lies in
`[target - tolerance, target + tolerance]` (inclusive); `False` when the
mean is undefined. -/
def check_pitch_constraint (midi_notes : List ℤ)
    (target_pitch tolerance : ℚ) : Bool :=
  match calculate_mean_pitch midi_notes with
  | none => false
  | some mean_pitch =>
    decide (target_pitch - tolerance ≤ mean_pitch) &&
    decide (mean_pitch ≤ target_pitch + tolerance)

/-- The `"mean"` entry of `get_pitch_stats` (the formula is duplicated
from `calculate_mean_pitch` in the source). -/
def get_pitch_stats_mean (midi_notes : List ℤ) : Option ℚ :=
  let sounding_notes := midi_notes.filter (fun p => decide (0 < p))
  if sounding_notes = [] then none
  else some (((sounding_notes.sum : ℤ) : ℚ) / (sounding_notes.length : ℚ))

/-- The `while attempt < args.max_attempts` loop of
`cli.py::generate_and_save`, with the generation call abstracted to the
pitch list it yields for a given attempt seed.  Carries the remaining
iteration budget, the current `attempt` counter and the last generated
melody (`None` before the first iteration). -/
def retry_loop (genPitches : ℤ → List ℤ) (target : Option ℚ)
    (tolerance : ℚ) (base_seed : ℤ) :
    ℕ → ℕ → Option (List ℤ) → Option (List ℤ) × ℕ
  | 0, attempt, last => (last, attempt)
  | r + 1, attempt, _ =>
    let attempt2 := attempt + 1
    let attempt_seed := base_seed + (attempt2 : ℤ) - 1
    let pitches := genPitches attempt_seed
    match target with
    | none => (some pitches, attempt2)
    | some t =>
      if (get_pitch_stats_mean pitches).isSome &&
          check_pitch_constraint pitches t tolerance then
        (some pitches, attempt2)
      else retry_loop genPitches target tolerance base_seed r attempt2
        (some pitches)

/-- `generate_and_save`, restricted to its retry loop: the returned
melody, the number of attempts used, and whether the unmet-constraint
warning is emitted (`mean_pitch_target is not None and
attempt >= max_attempts`). -/
def generate_and_save_retry (genPitches : ℤ → List ℤ) (base_seed : ℤ)
    (target : Option ℚ) (tolerance : ℚ) (max_attempts : ℕ) :
    Option (List ℤ) × ℕ × Bool :=
  let r := retry_loop genPitches target tolerance base_seed max_attempts
    0 none
  (r.1, r.2, decide (target ≠ none) && decide (max_attempts ≤ r.2))

end songMaking

/-! ## `src/songmaking/generators/scored.py` -/

namespace songmaking

open songMaking

/-- One entry of the `candidates` list of `generate_scored_melody`. -/
structure Candidate where
  pitches : List ℤ
  durations : List ℚ
  score : ℚ
  metrics : List (MetricName × ℚ)
  stats : DebugStats
deriving DecidableEq

/-- Insert a candidate after every already-placed candidate whose score is
at least as large. -/
def insert_by_score (c : Candidate) : List Candidate → List Candidate
  | [] => [c]
  | d :: ds => if d.score < c.score then c :: d :: ds
               else d :: insert_by_score c ds

/-- Stable sort by score descending
(`candidates.sort(key=lambda x: x[2], reverse=True)`): processing the
candidates in order and inserting each after equal-scored predecessors
reproduces Python's stable sort. -/
def sort_candidates (l : List Candidate) : List Candidate :=
  l.foldl (fun acc c => insert_by_score c acc) []

/-- The candidate fan-out loop of `generate_scored_melody`: candidate
`attempt` is generated with seed `rng_seed + attempt * 1000`, then
rejected if any sounding pitch is out of scale (counting one scale
rejection), if any duration is outside the valid alphabet (0.001
tolerance), if it has fewer than four sounding notes, or if its score is
below the threshold.  Returns the kept candidates in generation order
together with the scale-rejection count. -/
def scored_loop (fuel : ℕ) (mk : ℤ → RState) (spec : HarmonySpec)
    (rng_seed : ℤ) (config : GenConfig)
    (structure_spec : Option MelodyStructureSpec) (scale_pitches : List ℤ)
    (valid_durations : List ℚ) (min_acceptable : ℚ) :
    ℕ → ℕ → Option (List Candidate × ℕ)
  | 0, _ => some ([], 0)
  | r + 1, attempt =>
    let trial_seed := rng_seed + (attempt : ℤ) * 1000
    match generate_random_melody fuel mk spec trial_seed config
        structure_spec with
    | none => none
    | some (pitches, durations, debug_stats) =>
      let scale_violation := pitches.any
        (fun p => decide (0 < p) && !(is_pitch_in_scale p scale_pitches))
      if scale_violation then
        (scored_loop fuel mk spec rng_seed config structure_spec
            scale_pitches valid_durations min_acceptable r (attempt + 1)).map
          (fun pr => (pr.1, pr.2 + 1))
      else
        let invalid_duration := durations.any
          (fun dur => !(valid_durations.any
            (fun vd => decide (|dur - vd| < 1/1000))))
        if invalid_duration then
          scored_loop fuel mk spec rng_seed config structure_spec
            scale_pitches valid_durations min_acceptable r (attempt + 1)
        else
          let sounding_notes := pitches.filter (fun p => decide (0 < p))
          if sounding_notes.length < 4 then
            scored_loop fuel mk spec rng_seed config structure_spec
              scale_pitches valid_durations min_acceptable r (attempt + 1)
          else
            match aggregate_melody_score sounding_notes durations none
                structure_spec with
            | none => none
            | some (score, metrics) =>
              if min_acceptable ≤ score then
                (scored_loop fuel mk spec rng_seed config structure_spec
                    scale_pitches valid_durations min_acceptable r
                    (attempt + 1)).map
                  (fun pr =>
                    (⟨pitches, durations, score, metrics, debug_stats⟩ ::
                      pr.1, pr.2))
              else
                scored_loop fuel mk spec rng_seed config structure_spec
                  scale_pitches valid_durations min_acceptable r (attempt + 1)

/-- `generate_scored_melody`: generate `candidate_count` candidates with
seeds `rng_seed + i*1000`, keep the validated ones scoring at or above the
threshold, stable-sort them by score descending and return the first; if
none survive, generate one fallback melody with the base seed and return
it regardless of score.  (The string-keyed duration histogram of the
merged debug stats is not modelled; the numeric counters are.) -/
def generate_scored_melody (fuel : ℕ) (mk : ℤ → RState)
    (spec : HarmonySpec) (rng_seed : ℤ) (config : GenConfig)
    (structure_spec : Option MelodyStructureSpec) :
    Option (List ℤ × List ℚ × ℚ × DebugStats) :=
  let num_candidates := config.candidate_count.getD 10
  let min_acceptable := config.score_threshold.getD (3/10)
  -- validation scale: no chromatic fallback here
  let scale_pitches := build_scale_pitch_set spec.tonic_note
    spec.scale_pattern spec.lowest_midi spec.highest_midi
  let beats_per_bar := (spec.meter_numerator : ℚ) *
    (4 / (spec.meter_denominator : ℚ))
  let valid0 := get_discrete_duration_values beats_per_bar
  -- `valid_durations.update(structure_spec.rhythm_profile.keys())`
  let valid_durations :=
    match structure_spec with
    | some st =>
      match st.rhythm_profile with
      | some prof => valid0 ++ prof.map Prod.fst
      | none => valid0
    | none => valid0
  match scored_loop fuel mk spec rng_seed config structure_spec
      scale_pitches valid_durations min_acceptable num_candidates 0 with
  | none => none
  | some (candidates, rejections) =>
    match candidates with
    | [] =>
      -- no candidate met the threshold: one fallback with the base seed
      match generate_random_melody fuel mk spec rng_seed config
          structure_spec with
      | none => none
      | some (pitches, durations, debug_stats) =>
        match aggregate_melody_score
            (pitches.filter (fun p => decide (0 < p))) durations none
            structure_spec with
        | none => none
        | some (score, _) =>
          some (pitches, durations, score,
            ⟨rejections, debug_stats.octave_up_events,
              debug_stats.total_beats, debug_stats.repeat_count⟩)
    | c0 :: crest =>
      -- `candidates.sort(key=lambda x: x[2], reverse=True)`
      let sorted := sort_candidates (c0 :: crest)
      let best := sorted.headD c0
      let octave_total :=
        (candidates.map (fun c => c.stats.octave_up_events)).sum
      some (best.pitches, best.durations, best.score,
        ⟨rejections, octave_total, best.stats.total_beats,
          best.stats.repeat_count⟩)

end songmaking

/-! ## Spec-side helper definitions and concrete inputs -/

/-- A deterministic seed-to-state function whose streams are all zero. -/
def mkZero : ℤ → RState := fun _ => ⟨fun _ => 0, 0⟩

/-- A deterministic seed-to-state function replaying a fixed list of raw
draws (zero afterwards). -/
def mkOf (l : List ℕ) : ℤ → RState := fun _ => ⟨fun n => l.getD n 0, 0⟩

/-- C-major harmony over `[60, 74]` in 4/4 with the given measure count,
used as the concrete context of several witnesses and counterexamples. -/
def specCMaj (measures : ℤ) : songMaking.HarmonySpec :=
  ⟨"C", [0, 2, 4, 5, 7, 9, 11], [], 120, 4, 4, 60, 74, 1/4, measures⟩

/-- Single-pitch-class harmony over `[60, 84]` (scale `{60, 72, 84}`),
used to probe the Markov generator's octave behaviour. -/
def specOctaves : songMaking.HarmonySpec :=
  ⟨"C", [0], [], 120, 4, 4, 60, 84, 1/4, 2⟩

/-- Raw-draw stream driving `generate_markov_melody` on `specOctaves` to
the pitch sequence `[60, 60]`: ten minimal random walks that stay on 60,
then all-zero draws. -/
def markovStream : List ℕ :=
  ((List.range 70).map (fun n => if n % 7 ≤ 1 then 0 else 2)) ++
    [0, 0, 0, 0, 0]

/-- Beat positions on the 1/8-beat grid (the only positions the
generation loop can reach without a rhythm profile). -/
def onGrid (x : ℚ) : Prop := ∃ n : ℤ, x = (n : ℚ) / 8

namespace songmaking

open songMaking

/-- The per-candidate validation of `generate_scored_melody`, applied to
one generation result: reject on out-of-scale sounding pitches, on
durations outside the valid alphabet (0.001 tolerance), on fewer than
four sounding notes, and on a score below the threshold; otherwise keep
the candidate. -/
def candidate_keep (scale_pitches : List ℤ) (valid_durations : List ℚ)
    (min_acceptable : ℚ)
    (structure_spec : Option MelodyStructureSpec)
    (result : Option (List ℤ × List ℚ × DebugStats)) : Option Candidate :=
  match result with
  | none => none
  | some (pitches, durations, debug_stats) =>
    if pitches.any
        (fun p => decide (0 < p) && !(is_pitch_in_scale p scale_pitches)) then
      none
    else if durations.any
        (fun dur => !(valid_durations.any
          (fun vd => decide (|dur - vd| < 1/1000)))) then
      none
    else
      let sounding_notes := pitches.filter (fun p => decide (0 < p))
      if sounding_notes.length < 4 then none
      else
        match aggregate_melody_score sounding_notes durations none
            structure_spec with
        | none => none
        | some (score, metrics) =>
          if min_acceptable ≤ score then
            some ⟨pitches, durations, score, metrics, debug_stats⟩
          else none

/-- The candidate list of `generate_scored_melody` as the claim describes
it: candidate `i` is generated with seed `rng_seed + i * 1000` and kept
exactly when `candidate_keep` accepts it. -/
def scored_candidates (fuel : ℕ) (mk : ℤ → RState) (spec : HarmonySpec)
    (rng_seed : ℤ) (config : GenConfig)
    (structure_spec : Option MelodyStructureSpec) : List Candidate :=
  (List.range (config.candidate_count.getD 10)).filterMap
    (fun (i : ℕ) => candidate_keep
      (build_scale_pitch_set spec.tonic_note spec.scale_pattern
        spec.lowest_midi spec.highest_midi)
      (match structure_spec with
        | some st =>
          match st.rhythm_profile with
          | some prof => get_discrete_duration_values
              ((spec.meter_numerator : ℚ) *
                (4 / (spec.meter_denominator : ℚ))) ++ prof.map Prod.fst
          | none => get_discrete_duration_values
              ((spec.meter_numerator : ℚ) *
                (4 / (spec.meter_denominator : ℚ)))
        | none => get_discrete_duration_values
            ((spec.meter_numerator : ℚ) *
              (4 / (spec.meter_denominator : ℚ))))
      (config.score_threshold.getD (3/10)) structure_spec
      (generate_random_melody fuel mk spec (rng_seed + (i : ℤ) * 1000)
        config structure_spec))

end songmaking

/-! ## Claim C1: determinism of the generation strategies -/

open songMaking songmaking in
/-- C1: for every `(seed, config, HarmonySpec)`, the Random and
Sequence-Model strategies are deterministic functions of their inputs:
the result depends only on the `random.Random` stream created from the
given seed (`mk seed`), and not at all on the ambient process-global
random state — so two calls with identical inputs produce identical
`(pitches, durations)` (and stats). -/
theorem C1_deterministic_generation :
    ∀ (fuel : ℕ) (spec : HarmonySpec) (seed : ℤ) (config : GenConfig)
      (mk mk' : ℤ → RState) (ambient ambient' : RState),
      mk seed = mk' seed →
      generate_random_melody fuel mk spec seed config ambient =
        generate_random_melody fuel mk' spec seed config ambient' ∧
      generate_markov_melody fuel mk spec seed config ambient =
        generate_markov_melody fuel mk' spec seed config ambient' := by
  intro fuel spec seed config mk mk' amb amb' h
  constructor
  · unfold songMaking.generate_random_melody
    rw [h]
  · unfold songMaking.generate_markov_melody
    rw [h]

/-- Witness for C1 at a concrete seed, spec and pair of ambient states. -/
theorem C1_deterministic_generation_witness :
    songMaking.generate_random_melody 40 mkZero (specCMaj 1) 7
      ⟨none, none, none, none, none⟩ ⟨fun _ => 0, 0⟩ =
      songMaking.generate_random_melody 40 mkZero (specCMaj 1) 7
        ⟨none, none, none, none, none⟩ ⟨fun n => n, 0⟩ ∧
    songMaking.generate_markov_melody 40 mkZero (specCMaj 1) 7
      ⟨none, none, none, none, none⟩ ⟨fun _ => 0, 0⟩ =
      songMaking.generate_markov_melody 40 mkZero (specCMaj 1) 7
        ⟨none, none, none, none, none⟩ ⟨fun n => n, 0⟩ :=
  C1_deterministic_generation 40 (specCMaj 1) 7 ⟨none, none, none, none, none⟩
    mkZero mkZero ⟨fun _ => 0, 0⟩ ⟨fun n => n, 0⟩ rfl

/-! ## Claim C8: the `bars` override in `choose_harmony` -/

/-- C8: contrary to the claim, `choose_harmony` never reads the `bars`
entry of its option bag: the result is identical for any two `bars`
values, and on seed 42 with `bars = 2` (the CLI default) the meter is
3/4 — not the claimed forced 4/4 — and the measure count is 4, not the
override 2. -/
theorem C8_bars_override_ignored :
    (∀ (mk : ℤ → RState) (seed mn mx : ℤ) (b b' : Option ℤ),
      songMaking.choose_harmony mk seed ⟨some mn, some mx, b⟩ =
        songMaking.choose_harmony mk seed ⟨some mn, some mx, b'⟩) ∧
    (songMaking.choose_harmony mkZero 42 ⟨some 80, some 140, some 2⟩).map
        (fun h => (h.meter_numerator, h.meter_denominator,
          h.total_measures)) = some (3, 4, 4) := by
  constructor
  · intro mk seed mn mx b b'
    rfl
  · rfl

/-! ## Claim C7: evaluation of degenerate melodies -/

open songMaking in
/-- C7 counterexample: `measure_contour_balance` on an all-rest
(empty sounding) sequence returns 0.5, not 0 as the claim states. -/
theorem C7_contour_empty_counterexample :
    songMaking.measure_contour_balance ([] : List ℤ) = some (1/2) ∧
    ((1 : ℚ)/2 ≠ 0) :=
  ⟨rfl, by norm_num⟩

open songMaking in
/-- C7 (amended): `aggregate_melody_score` on an empty sounding-pitch
list computes all six metrics without any exception; but
`measure_contour_balance` returns 0.5 (not 0) for an all-rest or
single-note sequence, and returns 0 only for sequences of at least two
notes with no directional motion. -/
theorem C7_aggregate_empty_amended :
    (∀ durations : List ℚ,
      ((songMaking.aggregate_melody_score [] durations none none).map
        (fun r => r.2.map Prod.fst)) =
        some [MetricName.complexity, MetricName.contour,
          MetricName.smoothness, MetricName.variety, MetricName.rhythm,
          MetricName.coherence]) ∧
    songMaking.measure_contour_balance ([] : List ℤ) = some (1/2) ∧
    (∀ p : ℤ, songMaking.measure_contour_balance [p] = some (1/2)) ∧
    (∀ notes : List ℤ, 2 ≤ notes.length →
      (∀ pr ∈ notes.zip notes.tail, pr.1 = pr.2) →
      songMaking.measure_contour_balance notes = some 0) := by
  refine ⟨?_, rfl, fun p => rfl, ?_⟩
  · intro durations
    unfold aggregate_melody_score evaluate_rhythmic_entropy
    by_cases h : durations.length < 2 <;> simp [h] <;> rfl
  · intro notes h2 hpairs
    unfold measure_contour_balance
    rw [if_neg (by omega)]
    have hup : (notes.zip notes.tail).filter
        (fun pr => decide (pr.1 < pr.2)) = [] := by
      rw [List.filter_eq_nil_iff]
      intro pr hpr
      simp [hpairs pr hpr]
    have hdown : (notes.zip notes.tail).filter
        (fun pr => decide (pr.2 < pr.1)) = [] := by
      rw [List.filter_eq_nil_iff]
      intro pr hpr
      simp [hpairs pr hpr]
    simp [hup, hdown]

open songMaking in
/-- Witness for C7 at concrete inputs: scoring the all-rest melody with
one whole-note duration, and a two-note sequence with no motion. -/
theorem C7_aggregate_empty_witness :
    ((songMaking.aggregate_melody_score [] [4] none none).map
      (fun r => r.2.map Prod.fst)) =
      some [MetricName.complexity, MetricName.contour,
        MetricName.smoothness, MetricName.variety, MetricName.rhythm,
        MetricName.coherence] ∧
    songMaking.measure_contour_balance [3, 3] = some 0 :=
  ⟨C7_aggregate_empty_amended.1 [4],
   C7_aggregate_empty_amended.2.2.2 [3, 3] (by decide) (by decide)⟩

/-! ## Claim C9: octave-jump policy in the Markov generator -/

open songMaking in
/-- C9 counterexample: with `octave_up_chance = 1.0` the claim forces an
octave jump at every eligible step, yet on this concrete run the Markov
generator follows `[60, ...]` with 60 — not 72 — even though 72 is in the
scale and within the headroom bound, because the generator never applies
the octave-jump policy. -/
theorem C9_markov_no_octave_jump_counterexample :
    (songMaking.generate_markov_melody 100 (mkOf markovStream) specOctaves 5
      ⟨none, some 1, some 2, none, none⟩ ⟨fun _ => 0, 0⟩).map
        (fun o => o.1) = some [60, 60] ∧
    (60 + 12 : ℤ) ∈ songMaking.build_scale_pitch_set "C" [0] 60 84 ∧
    (60 + 12 : ℤ) ≤ 84 - 2 ∧ (60 : ℤ) ≠ 60 + 12 := by
  refine ⟨by decide, by decide, by decide, by decide⟩

open songMaking in
/-- C9 (amended): the Markov generator applies quantization and the same
range-clamp/resample policy as the Random strategy, but no octave-jump
policy at all: `octave_up_chance` is read and then ignored, so the output
is independent of it (only `ngram_order` matters), and the
`octave_up_events` counter of every returned melody is 0. -/
theorem C9_markov_ignores_octave_chance :
    ∀ (fuel : ℕ) (mk : ℤ → RState) (spec : HarmonySpec) (seed : ℤ)
      (cfg₁ cfg₂ : GenConfig) (ambient ambient' : RState),
      cfg₁.ngram_order = cfg₂.ngram_order →
      generate_markov_melody fuel mk spec seed cfg₁ ambient =
        generate_markov_melody fuel mk spec seed cfg₂ ambient' ∧
      (∀ out,
        generate_markov_melody fuel mk spec seed cfg₁ ambient = some out →
        out.2.2.octave_up_events = 0) := by
  intro fuel mk spec seed cfg₁ cfg₂ amb amb' h
  constructor
  · unfold songMaking.generate_markov_melody
    rw [h]
  · intro out hout
    unfold songMaking.generate_markov_melody at hout
    dsimp only at hout
    split at hout
    · exact absurd hout (by simp)
    · split at hout
      · exact absurd hout (by simp)
      · split at hout
        · exact absurd hout (by simp)
        · cases hout
          rfl

open songMaking in
/-- Witness for C9 at concrete configs differing only in
`octave_up_chance` (1 versus 0). -/
theorem C9_markov_ignores_octave_chance_witness :
    songMaking.generate_markov_melody 100 (mkOf markovStream) specOctaves 5
      ⟨none, some 1, some 2, none, none⟩ ⟨fun _ => 0, 0⟩ =
      songMaking.generate_markov_melody 100 (mkOf markovStream) specOctaves 5
        ⟨none, some 0, some 2, none, none⟩ ⟨fun n => n, 0⟩ :=
  (C9_markov_ignores_octave_chance 100 (mkOf markovStream) specOctaves 5
    ⟨none, some 1, some 2, none, none⟩ ⟨none, some 0, some 2, none, none⟩
    ⟨fun _ => 0, 0⟩ ⟨fun n => n, 0⟩ rfl).1

/-! ## Counterexamples for C2, C5 and C6 (motif repetition) -/

/-- C2 counterexample: a generated 8-beat melody (2 bars of 4/4) whose
motif prefix overshoots the 4-beat repeat unit; the rebuilt sequence sums
to 12 beats, exceeding `total_measures × beats_per_bar = 8` by far more
than the grid-snap epsilon. -/
theorem C2_duration_sum_counterexample :
    (songmaking.generate_random_melody 100 (mkOf [1, 0, 0, 0, 1, 0, 0, 0])
      (specCMaj 2) 42 ⟨none, none, none, none, none⟩
      (some ⟨some 4, none, false, 3/10⟩)).map (fun o => o.2.1.sum) =
        some 12 ∧
    ((specCMaj 2).meter_numerator : ℚ) *
        (4 / ((specCMaj 2).meter_denominator : ℚ)) *
        ((specCMaj 2).total_measures : ℚ) = 8 ∧
    ¬ ((12 : ℚ) ≤ 8 + 1/1000) :=
  ⟨by decide, by norm_num [specCMaj], by norm_num⟩

/-- C6 counterexample: a generated 8-beat melody (durations
`[1, 1, 1, 1, 4]`) processed with `repeat_unit_beats = 4.0` and no
variation; trimming by element count rather than by beats makes the
rebuilt sequence 5 beats long instead of the original 8, so the rebuilt
sequence does not match the original total length and its second 4 beats
cannot equal its first 4 beats. -/
theorem C6_total_length_counterexample :
    (songmaking.generate_random_melody 100
      (mkOf [2, 0, 2, 0, 2, 0, 2, 0, 0, 0]) (specCMaj 2) 42
      ⟨none, none, none, none, none⟩
      (some ⟨some 4, none, false, 3/10⟩)).map
        (fun o => (o.2.1, o.2.1.sum)) = some ([1, 1, 1, 1, 1], 5) ∧
    ((specCMaj 2).meter_numerator : ℚ) *
        (4 / ((specCMaj 2).meter_denominator : ℚ)) *
        ((specCMaj 2).total_measures : ℚ) = 8 ∧
    (5 : ℚ) ≠ 8 :=
  ⟨by decide, by norm_num [specCMaj], by norm_num⟩

/-- C5 counterexample: with motif variation enabled
(`variation_probability = 1`), the Random strategy with a StructureSpec
returns the sounding pitch 61, which is not in the C-major scale pitch
set: the transpose variation works in semitones and leaves the scale. -/
theorem C5_variation_out_of_scale_counterexample :
    (songmaking.generate_random_melody 100
      (mkOf [0, 4503599627370496, 0, 0, 0, 0, 0, 2]) (specCMaj 2) 42
      ⟨none, none, none, none, none⟩
      (some ⟨some 4, none, true, 1⟩)).map (fun o => o.1) =
        some [60, 61] ∧
    (61 : ℤ) ∉
      songMaking.build_scale_pitch_set "C" [0, 2, 4, 5, 7, 9, 11] 60 74 ∧
    (0 : ℤ) < 61 :=
  ⟨by decide, by decide, by decide⟩

/-! ## Claim C4: the pitch-constraint retry loop -/

open songMaking in
theorem retry_loop_spec (genPitches : ℤ → List ℤ) (t tolerance : ℚ)
    (base_seed : ℤ) :
    ∀ (r attempt : ℕ) (last : Option (List ℤ)), 1 ≤ r →
      ∃ p used, retry_loop genPitches (some t) tolerance base_seed r attempt
          last = (some p, used) ∧
        attempt + 1 ≤ used ∧ used ≤ attempt + r ∧
        p = genPitches (base_seed + (used : ℤ) - 1) ∧
        (∀ j : ℕ, attempt ≤ j → j + 1 < used →
          ((get_pitch_stats_mean (genPitches (base_seed + (j : ℤ)))).isSome &&
            check_pitch_constraint (genPitches (base_seed + (j : ℤ))) t
              tolerance) = false) ∧
        (((get_pitch_stats_mean p).isSome &&
            check_pitch_constraint p t tolerance) = true ∨
          used = attempt + r) := by
  intro r
  induction r with
  | zero => intro attempt last h; omega
  | succ n ih =>
    intro attempt last _
    have hseed : base_seed + ((attempt + 1 : ℕ) : ℤ) - 1 =
        base_seed + (attempt : ℤ) := by push_cast; ring
    by_cases hacc : ((get_pitch_stats_mean (genPitches (base_seed +
        (attempt : ℤ)))).isSome &&
        check_pitch_constraint (genPitches (base_seed + (attempt : ℤ))) t
          tolerance) = true
    · refine ⟨genPitches (base_seed + (attempt : ℤ)), attempt + 1, ?_, by
        omega, by omega, ?_, ?_, Or.inl hacc⟩
      · conv_lhs => rw [retry_loop]
        rw [hseed, if_pos hacc]
      · rw [show base_seed + ((attempt + 1 : ℕ) : ℤ) - 1 =
          base_seed + (attempt : ℤ) from hseed]
      · intro j hj1 hj2
        omega
    · have hstep : retry_loop genPitches (some t) tolerance base_seed
          (n + 1) attempt last =
          retry_loop genPitches (some t) tolerance base_seed n (attempt + 1)
            (some (genPitches (base_seed + (attempt : ℤ)))) := by
        conv_lhs => rw [retry_loop]
        rw [hseed, if_neg hacc]
      by_cases hn : 1 ≤ n
      · obtain ⟨p, used, h1, h2, h3, h4, h5, h6⟩ := ih (attempt + 1)
          (some (genPitches (base_seed + (attempt : ℤ)))) hn
        rw [hstep]
        refine ⟨p, used, h1, by omega, by omega, h4, ?_, ?_⟩
        · intro j hj1 hj2
          rcases Nat.lt_or_ge j (attempt + 1) with hj | hj
          · have hje : j = attempt := by omega
            subst hje
            simpa using hacc
          · exact h5 j hj hj2
        · rcases h6 with h | h
          · exact Or.inl h
          · exact Or.inr (by omega)
      · have hn0 : n = 0 := by omega
        subst hn0
        rw [hstep]
        refine ⟨genPitches (base_seed + (attempt : ℤ)), attempt + 1, rfl,
          by omega, by omega, hseed ▸ rfl, ?_, Or.inr rfl⟩
        intro j hj1 hj2
        omega

open songMaking in
/-- C4: with a target mean pitch set, the CLI retry loop uses seed
`base_seed + i` for (0-based) attempt `i`, stops at the first attempt
whose sounding-pitch mean lies within `[target - tolerance,
target + tolerance]` inclusive, after `max_attempts` unsuccessful
attempts returns the last generated melody with the unmet-constraint
warning raised, and never accepts a melody with zero sounding notes
(whose mean is undefined). -/
theorem C4_pitch_constraint_retry :
    ∀ (genPitches : ℤ → List ℤ) (base_seed : ℤ) (t tolerance : ℚ)
      (max_attempts : ℕ), 1 ≤ max_attempts →
      ∃ p used warned,
        generate_and_save_retry genPitches base_seed (some t) tolerance
          max_attempts = (some p, used, warned) ∧
        1 ≤ used ∧ used ≤ max_attempts ∧
        p = genPitches (base_seed + (used : ℤ) - 1) ∧
        (∀ j : ℕ, j + 1 < used →
          ((get_pitch_stats_mean (genPitches (base_seed + (j : ℤ)))).isSome &&
            check_pitch_constraint (genPitches (base_seed + (j : ℤ))) t
              tolerance) = false) ∧
        (((get_pitch_stats_mean p).isSome &&
            check_pitch_constraint p t tolerance) = true ∨
          (used = max_attempts ∧ warned = true)) ∧
        (warned = true ↔ max_attempts ≤ used) ∧
        (∀ q : List ℤ, check_pitch_constraint q t tolerance = true →
          ∃ m, calculate_mean_pitch q = some m ∧
            t - tolerance ≤ m ∧ m ≤ t + tolerance) ∧
        (∀ q : List ℤ, (∀ x ∈ q, ¬ (0 < x)) →
          check_pitch_constraint q t tolerance = false) := by
  intro gen base t tol max hmax
  obtain ⟨p, used, h1, h2, h3, h4, h5, h6⟩ :=
    retry_loop_spec gen t tol base max 0 none hmax
  refine ⟨p, used, decide (max ≤ used), ?_, by omega, by omega, h4,
    fun j hj => h5 j (by omega) hj, ?_, by simp, ?_, ?_⟩
  · unfold generate_and_save_retry
    rw [h1]
    simp
  · rcases h6 with h | h
    · exact Or.inl h
    · exact Or.inr ⟨by omega, by simp; omega⟩
  · intro q hq
    cases hm : calculate_mean_pitch q with
    | none =>
      unfold check_pitch_constraint at hq
      rw [hm] at hq
      exact absurd hq (by simp)
    | some m =>
      unfold check_pitch_constraint at hq
      rw [hm] at hq
      simp only [Bool.and_eq_true, decide_eq_true_eq] at hq
      exact ⟨m, rfl, hq.1, hq.2⟩
  · intro q hq
    have hfil : q.filter (fun p => decide (0 < p)) = [] :=
      List.filter_eq_nil_iff.mpr (fun a ha => by simpa using hq a ha)
    unfold check_pitch_constraint calculate_mean_pitch
    simp [hfil]

open songMaking in
/-- Witness for C4: a constant generator hitting the target on the
first attempt, with `max_attempts = 3`. -/
theorem C4_pitch_constraint_retry_witness :
    1 ≤ 3 ∧ ∃ p used warned,
      generate_and_save_retry (fun _ => [60]) 0 (some 60) (1/2) 3 =
        (some p, used, warned) ∧ 1 ≤ used ∧ used ≤ 3 :=
  ⟨by decide, by
    obtain ⟨p, used, warned, h1, h2, h3, _⟩ :=
      C4_pitch_constraint_retry (fun _ => [60]) 0 60 (1/2) 3 (by decide)
    exact ⟨p, used, warned, h1, h2, h3⟩⟩

/-! ## Claim C6: the Structure Enforcer (motif repetition) -/

namespace songmaking

/-- With variation disabled, the rebuild loop tiles the motif verbatim
and consumes no randomness. -/
theorem rebuild_no_variation (up : List ℤ) (ud : List ℚ) (vp : ℚ) :
    ∀ (k idx : ℕ) (accP : List ℤ) (accD : List ℚ) (s : RState),
      rebuild_repeats up ud false vp k idx accP accD s =
        ((accP ++ (List.replicate k up).flatten,
          accD ++ (List.replicate k ud).flatten), s) := by
  intro k
  induction k with
  | zero =>
    intro idx accP accD s
    simp [rebuild_repeats]
  | succ n ih =>
    intro idx accP accD s
    unfold rebuild_repeats
    rw [if_pos (Or.inr rfl), ih]
    simp [List.replicate_succ]

/-- The extracted motif is never longer than the zipped input. -/
theorem extract_unit_length_le (u : ℚ) :
    ∀ (pd : List (ℤ × ℚ)) (acc : ℚ),
      (extract_unit u pd acc).length ≤ pd.length := by
  intro pd
  induction pd with
  | nil => intro acc; simp [extract_unit]
  | cons hd tl ih =>
    intro acc
    unfold extract_unit
    by_cases h : acc < u - 1/100
    · rw [if_pos h]
      simpa using ih (acc + hd.2)
    · rw [if_neg h]
      simp

/-- Length of a flattened replication. -/
theorem flatten_replicate_length {α : Type} (n : ℕ) (l : List α) :
    (List.replicate n l).flatten.length = n * l.length := by
  simp [List.length_flatten]

/-- Characterisation of `apply_motif_repetition` without variation on
the main path: the motif element pattern is tiled `num_repeats` times and
trimmed to the original element count. -/
theorem apply_motif_no_var (pitches : List ℤ) (durations : List ℚ)
    (u vp : ℚ) (s : RState) (hne : pitches ≠ []) (hu : 0 < u)
    (hunit : extract_unit u (pitches.zip durations) 0 ≠ [])
    (hnr : 2 ≤ pyInt (durations.sum / u)) :
    apply_motif_repetition pitches durations u false vp s =
      (((List.replicate (pyInt (durations.sum / u)).toNat
          ((extract_unit u (pitches.zip durations) 0).map Prod.fst)).flatten.take
            (min ((pyInt (durations.sum / u)).toNat *
              (extract_unit u (pitches.zip durations) 0).length)
              durations.length),
        (List.replicate (pyInt (durations.sum / u)).toNat
          ((extract_unit u (pitches.zip durations) 0).map Prod.snd)).flatten.take
            (min ((pyInt (durations.sum / u)).toNat *
              (extract_unit u (pitches.zip durations) 0).length)
              durations.length)), s) := by
  unfold apply_motif_repetition
  rw [if_neg (by push_neg; exact ⟨hne, by linarith⟩)]
  dsimp only
  rw [if_neg (fun h => hunit (List.map_eq_nil_iff.mp h)),
    if_neg (by omega), rebuild_no_variation]
  dsimp only
  rw [List.nil_append, List.nil_append]
  have hlenD : (List.replicate (pyInt (durations.sum / u)).toNat
      ((extract_unit u (pitches.zip durations) 0).map Prod.snd)).flatten.length =
      (pyInt (durations.sum / u)).toNat *
        (extract_unit u (pitches.zip durations) 0).length := by
    rw [flatten_replicate_length, List.length_map]
  have hlenP : (List.replicate (pyInt (durations.sum / u)).toNat
      ((extract_unit u (pitches.zip durations) 0).map Prod.fst)).flatten.length =
      (pyInt (durations.sum / u)).toNat *
        (extract_unit u (pitches.zip durations) 0).length := by
    rw [flatten_replicate_length, List.length_map]
  by_cases hcmp : durations.length <
      (List.replicate (pyInt (durations.sum / u)).toNat
        ((extract_unit u (pitches.zip durations) 0).map Prod.snd)).flatten.length
  · rw [if_pos hcmp]
    rw [hlenD] at hcmp
    rw [min_eq_right (by omega)]
  · rw [if_neg hcmp]
    rw [hlenD] at hcmp
    rw [min_eq_left (by omega), List.take_of_length_le (le_of_eq hlenP),
      List.take_of_length_le (le_of_eq hlenD)]

end songmaking

open songmaking in
/-- C6 (amended): with `allow_motif_variation = False`,
`apply_motif_repetition` returns the sequence unmodified when
`num_repeats = int(total_beats / repeat_unit_beats) < 2`; otherwise the
result is `num_repeats` copies of the motif's element pattern (pitches
and durations) truncated to the original element count — not the original
beat length: its first motif-length element block is exactly the motif,
and equals its second block whenever two full blocks survive the trim. -/
theorem C6_motif_repetition :
    ∀ (pitches : List ℤ) (durations : List ℚ) (u vp : ℚ) (s : RState),
      pitches.length = durations.length →
      (pyInt (durations.sum / u) < 2 →
        (apply_motif_repetition pitches durations u false vp s).1 =
          (pitches, durations)) ∧
      (pitches ≠ [] → 0 < u →
        extract_unit u (pitches.zip durations) 0 ≠ [] →
        2 ≤ pyInt (durations.sum / u) →
        (apply_motif_repetition pitches durations u false vp s).1.1 =
          ((List.replicate (pyInt (durations.sum / u)).toNat
            ((extract_unit u (pitches.zip durations) 0).map Prod.fst)).flatten.take
              (min ((pyInt (durations.sum / u)).toNat *
                (extract_unit u (pitches.zip durations) 0).length)
                durations.length)) ∧
        (apply_motif_repetition pitches durations u false vp s).1.2 =
          ((List.replicate (pyInt (durations.sum / u)).toNat
            ((extract_unit u (pitches.zip durations) 0).map Prod.snd)).flatten.take
              (min ((pyInt (durations.sum / u)).toNat *
                (extract_unit u (pitches.zip durations) 0).length)
                durations.length)) ∧
        (apply_motif_repetition pitches durations u false vp s).1.1.take
            (extract_unit u (pitches.zip durations) 0).length =
          (extract_unit u (pitches.zip durations) 0).map Prod.fst ∧
        (2 * (extract_unit u (pitches.zip durations) 0).length ≤
            min ((pyInt (durations.sum / u)).toNat *
              (extract_unit u (pitches.zip durations) 0).length)
              durations.length →
          ((apply_motif_repetition pitches durations u false vp s).1.1.drop
              (extract_unit u (pitches.zip durations) 0).length).take
            (extract_unit u (pitches.zip durations) 0).length =
          (extract_unit u (pitches.zip durations) 0).map Prod.fst)) := by
  intro pitches durations u vp s hlen
  constructor
  · intro hlt
    unfold apply_motif_repetition
    by_cases h1 : pitches = [] ∨ u ≤ 0
    · rw [if_pos h1]
    · rw [if_neg h1]
      dsimp only
      by_cases h2 : (extract_unit u (pitches.zip durations) 0).map Prod.fst = []
      · rw [if_pos h2]
      · rw [if_neg h2, if_pos hlt]
  · intro hne hu hunit hnr
    have hchar := apply_motif_no_var pitches durations u vp s hne hu hunit hnr
    set unit := extract_unit u (pitches.zip durations) 0 with hU
    set nR := (pyInt (durations.sum / u)).toNat with hNR
    set k := unit.length with hK
    set m := min (nR * k) durations.length with hM
    have hkP : (unit.map Prod.fst).length = k := by
      rw [List.length_map]
    have hk1 : 1 ≤ k := by
      cases hu2 : unit with
      | nil => exact absurd hu2 hunit
      | cons a l => rw [hK, hu2]; simp
    have hkd : k ≤ durations.length := by
      have h1 := extract_unit_length_le u (pitches.zip durations) 0
      have h2 : (pitches.zip durations).length = durations.length := by
        rw [List.length_zip, hlen, min_self]
      rw [hK, hU]
      omega
    have hnR2 : 2 ≤ nR := by
      rw [hNR]
      omega
    have hknk : k ≤ nR * k := Nat.le_mul_of_pos_left k (by omega)
    have hkm : k ≤ m := le_min hknk hkd
    obtain ⟨n2, hn2⟩ : ∃ t, nR = t + 2 := ⟨nR - 2, by omega⟩
    have htP : (List.replicate nR (unit.map Prod.fst)).flatten =
        (unit.map Prod.fst) ++
          ((unit.map Prod.fst) ++
            (List.replicate n2 (unit.map Prod.fst)).flatten) := by
      rw [hn2, List.replicate_succ, List.replicate_succ, List.flatten_cons,
        List.flatten_cons]
    rw [hchar]
    refine ⟨rfl, rfl, ?_, ?_⟩
    · rw [List.take_take, min_eq_left hkm, htP, ← hkP]
      rw [List.take_left]
    · intro h2k
      rw [List.drop_take, List.take_take, min_eq_left (by omega), htP,
        ← hkP, List.drop_left]
      exact List.take_left _ _

/-- Witness for C6 on a concrete 4-beat sequence with a 2-beat motif. -/
theorem C6_motif_repetition_witness :
    (2 : ℤ) ≤ pyInt (([1, 1, 1, 1] : List ℚ).sum / 2) ∧
    ((songmaking.apply_motif_repetition [60, 61, 62, 63] [1, 1, 1, 1] 2
        false (3/10) ⟨fun _ => 0, 0⟩).1.1.take
          (songmaking.extract_unit 2
            (([60, 61, 62, 63] : List ℤ).zip [1, 1, 1, 1]) 0).length =
      (songmaking.extract_unit 2
        (([60, 61, 62, 63] : List ℤ).zip [1, 1, 1, 1]) 0).map Prod.fst) :=
  ⟨by decide,
    ((C6_motif_repetition [60, 61, 62, 63] [1, 1, 1, 1] 2 (3/10)
      ⟨fun _ => 0, 0⟩ (by decide)).2 (by decide) (by decide) (by decide)
      (by decide)).2.2.1⟩

/- Invariant lemma suite for the generation loop: grid arithmetic,
   duration selection, scale construction and pitch selection. -/

theorem onGrid_add {a b : ℚ} (ha : onGrid a) (hb : onGrid b) :
    onGrid (a + b) := by
  obtain ⟨m, rfl⟩ := ha
  obtain ⟨n, rfl⟩ := hb
  exact ⟨m + n, by push_cast; ring⟩

theorem onGrid_zero : onGrid 0 := ⟨0, by norm_num⟩

theorem onGrid_alphabet :
    ∀ d ∈ songMaking.DURATION_VALUES, onGrid d ∧ 1/8 ≤ d := by
  intro d hd
  unfold songMaking.DURATION_VALUES at hd
  fin_cases hd
  · exact ⟨⟨32, by norm_num⟩, by norm_num⟩
  · exact ⟨⟨16, by norm_num⟩, by norm_num⟩
  · exact ⟨⟨8, by norm_num⟩, by norm_num⟩
  · exact ⟨⟨4, by norm_num⟩, by norm_num⟩
  · exact ⟨⟨2, by norm_num⟩, by norm_num⟩
  · exact ⟨⟨1, by norm_num⟩, by norm_num⟩

theorem ratFloor_intCast (n : ℤ) : ratFloor (n : ℚ) = n := by
  unfold ratFloor
  rw [Rat.intCast_num, Rat.intCast_den]
  simp

theorem pyRound_intCast (n : ℤ) : pyRound (n : ℚ) = n := by
  unfold pyRound
  rw [ratFloor_intCast]
  rw [if_pos (by norm_num)]

theorem snap_onGrid {x : ℚ} (hx : onGrid x) :
    songMaking.snap_to_grid x songMaking.GRID_RESOLUTION = x := by
  obtain ⟨n, rfl⟩ := hx
  unfold songMaking.snap_to_grid songMaking.GRID_RESOLUTION
  have h1 : (n : ℚ) / 8 / (1/8) = (n : ℚ) := by field_simp
  rw [h1, pyRound_intCast]
  field_simp

theorem onGrid_le_of_le_eps {a b : ℚ} (ha : onGrid a) (hb : onGrid b)
    (h : a ≤ b + 1/1000) : a ≤ b := by
  obtain ⟨m, rfl⟩ := ha
  obtain ⟨n, rfl⟩ := hb
  have h8 : (m : ℚ) ≤ (n : ℚ) + 1/125 := by linarith
  have hmn : m ≤ n := by
    by_contra hc
    push_neg at hc
    have : (n : ℚ) + 1 ≤ (m : ℚ) := by exact_mod_cast hc
    linarith
  have : (m : ℚ) ≤ (n : ℚ) := by exact_mod_cast hmn
  linarith

theorem onGrid_pos_ge {a : ℚ} (ha : onGrid a) (h : 0 < a) : 1/8 ≤ a := by
  obtain ⟨n, rfl⟩ := ha
  have hn : 0 < n := by
    by_contra hc
    push_neg at hc
    have : (n : ℚ) ≤ 0 := by exact_mod_cast hc
    have : (n : ℚ) / 8 ≤ 0 := by linarith
    linarith
  have : (1 : ℚ) ≤ (n : ℚ) := by exact_mod_cast hn
  linarith

theorem pyChoiceNE_mem {α : Type} (a : α) (rest : List α) (s : RState) :
    (pyChoiceNE a rest s).1 ∈ a :: rest := List.get_mem _ _ _

open songMaking in
theorem choose_duration_spec (remaining : ℚ) (allowed : List ℚ)
    (s : RState)
    (hne : allowed.filter (fun d => decide (d ≤ remaining + 1/1000)) ≠ []) :
    (choose_duration remaining allowed s).1 ∈ allowed ∧
    (choose_duration remaining allowed s).1 ≤ remaining + 1/1000 := by
  unfold choose_duration
  cases heq : allowed.filter (fun d => decide (d ≤ remaining + 1/1000)) with
  | nil => exact absurd heq hne
  | cons a rest =>
    dsimp only
    have hmem : (pyChoiceNE a rest s).1 ∈ a :: rest := pyChoiceNE_mem a rest s
    rw [← heq] at hmem
    rw [List.mem_filter] at hmem
    exact ⟨hmem.1, by simpa using hmem.2⟩

theorem eighth_mem_filter (remaining : ℚ) (h : 1/8 ≤ remaining) :
    (1/8 : ℚ) ∈ songMaking.DURATION_VALUES.filter
      (fun d => decide (d ≤ remaining + 1/1000)) := by
  rw [List.mem_filter]
  constructor
  · unfold songMaking.DURATION_VALUES
    simp
  · simp only [decide_eq_true_eq]
    linarith

theorem mem_insert_asc {x y : ℤ} {l : List ℤ} :
    y ∈ songMaking.insert_asc x l ↔ y = x ∨ y ∈ l := by
  induction l with
  | nil => simp [songMaking.insert_asc]
  | cons a t ih =>
    unfold songMaking.insert_asc
    by_cases h : x ≤ a
    · rw [if_pos h]
      simp [or_comm, or_assoc, or_left_comm]
    · rw [if_neg h]
      simp [ih]
      tauto

theorem mem_sort_ints {y : ℤ} {l : List ℤ} :
    y ∈ songMaking.sort_ints l ↔ y ∈ l := by
  induction l with
  | nil => simp [songMaking.sort_ints]
  | cons a t ih =>
    unfold songMaking.sort_ints at ih ⊢
    rw [List.foldr_cons, mem_insert_asc, ih, List.mem_cons]

open songMaking in
theorem build_scale_range (tonic : String) (pat : List ℤ) (lo hi : ℤ) :
    ∀ p ∈ build_scale_pitch_set tonic pat lo hi, lo ≤ p ∧ p ≤ hi := by
  intro p hp
  unfold build_scale_pitch_set at hp
  rw [mem_sort_ints, List.mem_dedup] at hp
  dsimp only at hp
  suffices h : ∀ (os : List ℕ) (acc : List ℤ),
      (∀ q ∈ acc, lo ≤ q ∧ q ≤ hi) →
      ∀ q ∈ os.foldr (fun (o : ℕ) acc2 =>
        pat.foldr (fun interval acc3 =>
          if lo ≤ note_name_to_midi tonic 4 + ((o : ℤ) - 3) * 12 + interval ∧
              note_name_to_midi tonic 4 + ((o : ℤ) - 3) * 12 + interval ≤ hi
          then (note_name_to_midi tonic 4 + ((o : ℤ) - 3) * 12 + interval) :: acc3
          else acc3) acc2) acc, lo ≤ q ∧ q ≤ hi by
    exact h (List.range 8) [] (by simp) p hp
  intro os
  induction os with
  | nil => intro acc hacc q hq; exact hacc q hq
  | cons o ot ih =>
    intro acc hacc q hq
    rw [List.foldr_cons] at hq
    revert hq
    suffices h2 : ∀ (ps : List ℤ) (acc2 : List ℤ),
        (∀ r ∈ acc2, lo ≤ r ∧ r ≤ hi) →
        q ∈ ps.foldr (fun interval acc3 =>
          if lo ≤ note_name_to_midi tonic 4 + ((o : ℤ) - 3) * 12 + interval ∧
              note_name_to_midi tonic 4 + ((o : ℤ) - 3) * 12 + interval ≤ hi
          then (note_name_to_midi tonic 4 + ((o : ℤ) - 3) * 12 + interval) :: acc3
          else acc3) acc2 → lo ≤ q ∧ q ≤ hi by
      intro hq
      exact h2 pat _ (fun r hr => ih acc hacc r hr) hq
    intro ps
    induction ps with
    | nil => intro acc2 hacc2 hq; exact hacc2 q hq
    | cons i it ih2 =>
      intro acc2 hacc2 hq
      rw [List.foldr_cons] at hq
      by_cases hc : lo ≤ note_name_to_midi tonic 4 + ((o : ℤ) - 3) * 12 + i ∧
          note_name_to_midi tonic 4 + ((o : ℤ) - 3) * 12 + i ≤ hi
      · rw [if_pos hc] at hq
        rcases List.mem_cons.mp hq with h | h
        · exact h ▸ hc
        · exact ih2 acc2 hacc2 h
      · rw [if_neg hc] at hq
        exact ih2 acc2 hacc2 hq

open songMaking in
theorem ensure_id {p : ℤ} {scale : List ℤ} {lo hi : ℤ} (s : RState)
    (h1 : lo ≤ p) (h2 : p ≤ hi) :
    ensure_pitch_in_range p scale lo hi s = (p, s) := by
  unfold ensure_pitch_in_range
  rw [if_pos ⟨h1, h2⟩]

open songMaking in
theorem pick_scale_pitch_spec (scale : List ℤ) (prev : Option ℤ)
    (lo hi : ℤ) (ch : ℚ) (s : RState) (hne : scale ≠ []) :
    ∃ p j s', pick_scale_pitch scale prev lo hi ch s = some ((p, j), s') ∧
      p ∈ scale := by
  have huni : ∀ st : RState, ∃ p j s',
      (pyChoice scale st).map (fun pr => ((pr.1, false), pr.2)) =
        some ((p, j), s') ∧ p ∈ scale := by
    intro st
    cases hs : scale with
    | nil => exact absurd hs hne
    | cons a rest =>
      refine ⟨(pyChoiceNE a rest st).1, false, (pyChoiceNE a rest st).2,
        ?_, ?_⟩
      · simp [pyChoice]
      · exact pyChoiceNE_mem a rest st
  unfold pick_scale_pitch
  cases prev with
  | none =>
    dsimp only
    exact huni s
  | some prevv =>
    dsimp only
    have hnorm : ∀ st : RState, ∃ p j s',
        (if prevv ∈ scale then
          match [-2, -1, 1, 2].foldr
              (fun (offset : ℤ) acc =>
                if h : 0 ≤ ((scale.indexOf prevv : ℕ) : ℤ) + offset ∧
                    (((scale.indexOf prevv : ℕ) : ℤ) + offset).toNat <
                      scale.length then
                  scale.get ⟨(((scale.indexOf prevv : ℕ) : ℤ) +
                    offset).toNat, h.2⟩ :: acc
                else acc) [] with
          | [] => (pyChoice scale st).map (fun pr => ((pr.1, false), pr.2))
          | a :: rest =>
            if (pyRandom st).1 < 6/10 then
              some (((pyChoiceNE a rest (pyRandom st).2).1, false),
                (pyChoiceNE a rest (pyRandom st).2).2)
            else
              (pyChoice scale (pyRandom st).2).map
                (fun pr => ((pr.1, false), pr.2))
        else (pyChoice scale st).map (fun pr => ((pr.1, false), pr.2))) =
          some ((p, j), s') ∧ p ∈ scale := by
      intro st
      by_cases hin : prevv ∈ scale
      · rw [if_pos hin]
        have hnb : ∀ x ∈ [-2, -1, 1, 2].foldr
            (fun (offset : ℤ) acc =>
              if h : 0 ≤ ((scale.indexOf prevv : ℕ) : ℤ) + offset ∧
                  (((scale.indexOf prevv : ℕ) : ℤ) + offset).toNat <
                    scale.length then
                scale.get ⟨(((scale.indexOf prevv : ℕ) : ℤ) +
                  offset).toNat, h.2⟩ :: acc
              else acc) [], x ∈ scale := by
          intro x hx
          suffices hgen : ∀ (offs : List ℤ) (acc : List ℤ),
              (∀ y ∈ acc, y ∈ scale) →
              x ∈ offs.foldr (fun (offset : ℤ) acc2 =>
                if h : 0 ≤ ((scale.indexOf prevv : ℕ) : ℤ) + offset ∧
                    (((scale.indexOf prevv : ℕ) : ℤ) + offset).toNat <
                      scale.length then
                  scale.get ⟨(((scale.indexOf prevv : ℕ) : ℤ) +
                    offset).toNat, h.2⟩ :: acc2
                else acc2) acc → x ∈ scale by
            exact hgen [-2, -1, 1, 2] [] (by simp) hx
          intro offs
          induction offs with
          | nil => intro acc hacc hx2; exact hacc x hx2
          | cons o ot iho =>
            intro acc hacc hx2
            rw [List.foldr_cons] at hx2
            by_cases hidx : 0 ≤ ((scale.indexOf prevv : ℕ) : ℤ) + o ∧
                (((scale.indexOf prevv : ℕ) : ℤ) + o).toNat < scale.length
            · rw [dif_pos hidx] at hx2
              rcases List.mem_cons.mp hx2 with h | h
              · exact h ▸ List.get_mem _ _ _
              · exact iho acc hacc h
            · rw [dif_neg hidx] at hx2
              exact iho acc hacc hx2
        cases hnbeq : [-2, -1, 1, 2].foldr
            (fun (offset : ℤ) acc =>
              if h : 0 ≤ ((scale.indexOf prevv : ℕ) : ℤ) + offset ∧
                  (((scale.indexOf prevv : ℕ) : ℤ) + offset).toNat <
                    scale.length then
                scale.get ⟨(((scale.indexOf prevv : ℕ) : ℤ) +
                  offset).toNat, h.2⟩ :: acc
              else acc) [] with
        | nil =>
          exact huni st
        | cons a rest =>
          dsimp only
          by_cases hq : (pyRandom st).1 < 6/10
          · rw [if_pos hq]
            refine ⟨(pyChoiceNE a rest (pyRandom st).2).1, false,
              (pyChoiceNE a rest (pyRandom st).2).2, rfl, ?_⟩
            apply hnb
            rw [hnbeq]
            exact pyChoiceNE_mem a rest (pyRandom st).2
          · rw [if_neg hq]
            exact huni (pyRandom st).2
      · rw [if_neg hin]
        exact huni st
    by_cases hq : (pyRandom s).1 < ch
    · obtain ⟨q1, s1, hps⟩ : ∃ q1 s1, pyRandom s = (q1, s1) := ⟨_, _, rfl⟩
      rw [hps]
      dsimp only
      rw [hps] at hq
      rw [if_pos hq]
      by_cases hroom : prevv + 12 ≤ hi - 2
      · rw [if_pos hroom]
        by_cases hcand : prevv + 12 ∈ scale ∧ prevv + 12 ≤ hi
        · rw [if_pos hcand]
          exact ⟨prevv + 12, true, s1, rfl, hcand.1⟩
        · rw [if_neg hcand]
          exact hnorm s1
      · rw [if_neg hroom]
        exact hnorm s1
    · obtain ⟨q1, s1, hps⟩ : ∃ q1 s1, pyRandom s = (q1, s1) := ⟨_, _, rfl⟩
      rw [hps]
      dsimp only
      rw [hps] at hq
      rw [if_neg hq]
      exact hnorm s1

open songMaking in
theorem melody_loop_len (scale : List ℤ) (allowed : List ℚ)
    (profile : Option (List (ℚ × ℚ))) (lo hi : ℤ) (ch rest total : ℚ) :
    ∀ (fuel : ℕ) (p : List ℤ) (d : List ℚ) (e : ℚ) (o : ℕ) (s : RState) out,
      melody_loop scale allowed profile lo hi ch rest total fuel p d e o s =
        some out →
      p.length = d.length → out.1.length = out.2.1.length := by
  intro fuel
  induction fuel with
  | zero =>
    intro p d e o s out h hlen
    rw [melody_loop] at h
    exact absurd h (by simp)
  | succ n ih =>
    intro p d e o s out h hlen
    rw [melody_loop] at h
    by_cases hcond : e < total
    · rw [if_pos hcond] at h
      dsimp only at h
      cases hds : duration_step profile allowed (total - e) s with
      | none => rw [hds] at h; exact absurd h (by simp)
      | some ds =>
        obtain ⟨dur, s1⟩ := ds
        rw [hds] at h
        dsimp only at h
        rcases hpr : pyRandom s1 with ⟨q, s2⟩
        rw [hpr] at h
        dsimp only at h
        by_cases hrest : q < rest
        · rw [if_pos hrest] at h
          exact ih _ _ _ _ _ _ h (by simp [hlen])
        · rw [if_neg hrest] at h
          cases hpk : pick_scale_pitch scale
              (match p.getLast? with
                | some pp => if pp ≠ 0 then some pp else none
                | none => none) lo hi ch s2 with
          | none => rw [hpk] at h; exact absurd h (by simp)
          | some pr =>
            obtain ⟨⟨pitch1, oj⟩, s3⟩ := pr
            rw [hpk] at h
            dsimp only at h
            rcases hen : ensure_pitch_in_range pitch1 scale lo hi s3 with
              ⟨pitch2, s4⟩
            rw [hen] at h
            dsimp only at h
            exact ih _ _ _ _ _ _ h (by simp [hlen])
    · rw [if_neg hcond] at h
      cases h
      simpa using hlen

open songMaking in
theorem pick_scale_pitch_mem (scale : List ℤ) (prev : Option ℤ)
    (lo hi : ℤ) (ch : ℚ) (s : RState) (p1 : ℤ) (j : Bool) (s' : RState)
    (h : pick_scale_pitch scale prev lo hi ch s = some ((p1, j), s')) :
    p1 ∈ scale := by
  have huni : ∀ st : RState,
      (pyChoice scale st).map (fun pr => ((pr.1, false), pr.2)) =
        some ((p1, j), s') → p1 ∈ scale := by
    intro st hu
    cases hs : scale with
    | nil =>
      subst hs
      exact absurd hu (by simp [pyChoice])
    | cons a rest =>
      subst hs
      simp only [pyChoice, Option.map_some', Option.some_inj,
        Prod.mk.injEq] at hu
      rw [← hu.1.1]
      exact pyChoiceNE_mem a rest st
  have hnorm : ∀ (prevv : ℤ) (st : RState),
      (if prevv ∈ scale then
        match [-2, -1, 1, 2].foldr
            (fun (offset : ℤ) acc =>
              if h : 0 ≤ ((scale.indexOf prevv : ℕ) : ℤ) + offset ∧
                  (((scale.indexOf prevv : ℕ) : ℤ) + offset).toNat <
                    scale.length then
                scale.get ⟨(((scale.indexOf prevv : ℕ) : ℤ) +
                  offset).toNat, h.2⟩ :: acc
              else acc) [] with
        | [] => (pyChoice scale st).map (fun pr => ((pr.1, false), pr.2))
        | a :: rest =>
          if (pyRandom st).1 < 6/10 then
            some (((pyChoiceNE a rest (pyRandom st).2).1, false),
              (pyChoiceNE a rest (pyRandom st).2).2)
          else
            (pyChoice scale (pyRandom st).2).map
              (fun pr => ((pr.1, false), pr.2))
      else (pyChoice scale st).map (fun pr => ((pr.1, false), pr.2))) =
        some ((p1, j), s') → p1 ∈ scale := by
    intro prevv st hn
    by_cases hin : prevv ∈ scale
    · rw [if_pos hin] at hn
      have hnb : ∀ x ∈ [-2, -1, 1, 2].foldr
          (fun (offset : ℤ) acc =>
            if h : 0 ≤ ((scale.indexOf prevv : ℕ) : ℤ) + offset ∧
                (((scale.indexOf prevv : ℕ) : ℤ) + offset).toNat <
                  scale.length then
              scale.get ⟨(((scale.indexOf prevv : ℕ) : ℤ) +
                offset).toNat, h.2⟩ :: acc
            else acc) [], x ∈ scale := by
        intro x hx
        suffices hgen : ∀ (offs : List ℤ) (acc : List ℤ),
            (∀ y ∈ acc, y ∈ scale) →
            x ∈ offs.foldr (fun (offset : ℤ) acc2 =>
              if h : 0 ≤ ((scale.indexOf prevv : ℕ) : ℤ) + offset ∧
                  (((scale.indexOf prevv : ℕ) : ℤ) + offset).toNat <
                    scale.length then
                scale.get ⟨(((scale.indexOf prevv : ℕ) : ℤ) +
                  offset).toNat, h.2⟩ :: acc2
              else acc2) acc → x ∈ scale by
          exact hgen [-2, -1, 1, 2] [] (by simp) hx
        intro offs
        induction offs with
        | nil => intro acc hacc hx2; exact hacc x hx2
        | cons o ot iho =>
          intro acc hacc hx2
          rw [List.foldr_cons] at hx2
          by_cases hidx : 0 ≤ ((scale.indexOf prevv : ℕ) : ℤ) + o ∧
              (((scale.indexOf prevv : ℕ) : ℤ) + o).toNat < scale.length
          · rw [dif_pos hidx] at hx2
            rcases List.mem_cons.mp hx2 with h | h
            · exact h ▸ List.get_mem _ _ _
            · exact iho acc hacc h
          · rw [dif_neg hidx] at hx2
            exact iho acc hacc hx2
      cases hnbeq : [-2, -1, 1, 2].foldr
          (fun (offset : ℤ) acc =>
            if h : 0 ≤ ((scale.indexOf prevv : ℕ) : ℤ) + offset ∧
                (((scale.indexOf prevv : ℕ) : ℤ) + offset).toNat <
                  scale.length then
              scale.get ⟨(((scale.indexOf prevv : ℕ) : ℤ) +
                offset).toNat, h.2⟩ :: acc
            else acc) [] with
      | nil =>
        rw [hnbeq] at hn
        exact huni st hn
      | cons a rest =>
        rw [hnbeq] at hn
        dsimp only at hn
        by_cases hq : (pyRandom st).1 < 6/10
        · rw [if_pos hq] at hn
          simp only [Option.some_inj, Prod.mk.injEq] at hn
          rw [← hn.1.1]
          apply hnb
          rw [hnbeq]
          exact pyChoiceNE_mem a rest (pyRandom st).2
        · rw [if_neg hq] at hn
          exact huni (pyRandom st).2 hn
    · rw [if_neg hin] at hn
      exact huni st hn
  unfold pick_scale_pitch at h
  cases prev with
  | none =>
    dsimp only at h
    exact huni s h
  | some prevv =>
    dsimp only at h
    rcases hps : pyRandom s with ⟨q1, s1⟩
    rw [hps] at h
    dsimp only at h
    by_cases hq : q1 < ch
    · rw [if_pos hq] at h
      by_cases hroom : prevv + 12 ≤ hi - 2
      · rw [if_pos hroom] at h
        by_cases hcand : prevv + 12 ∈ scale ∧ prevv + 12 ≤ hi
        · rw [if_pos hcand] at h
          simp only [Option.some_inj, Prod.mk.injEq] at h
          rw [← h.1.1]
          exact hcand.1
        · rw [if_neg hcand] at h
          exact hnorm prevv s1 h
      · rw [if_neg hroom] at h
        exact hnorm prevv s1 h
    · rw [if_neg hq] at h
      exact hnorm prevv s1 h

open songMaking in
theorem melody_loop_mem (scale : List ℤ) (allowed : List ℚ)
    (profile : Option (List (ℚ × ℚ))) (lo hi : ℤ) (ch rest total : ℚ)
    (hrange : ∀ q ∈ scale, lo ≤ q ∧ q ≤ hi) :
    ∀ (fuel : ℕ) (p : List ℤ) (d : List ℚ) (e : ℚ) (o : ℕ) (s : RState) out,
      melody_loop scale allowed profile lo hi ch rest total fuel p d e o s =
        some out →
      (∀ x ∈ p, x = 0 ∨ x ∈ scale) →
      ∀ x ∈ out.1, x = 0 ∨ x ∈ scale := by
  intro fuel
  induction fuel with
  | zero =>
    intro p d e o s out h hp
    rw [melody_loop] at h
    exact absurd h (by simp)
  | succ n ih =>
    intro p d e o s out h hp
    rw [melody_loop] at h
    by_cases hcond : e < total
    · rw [if_pos hcond] at h
      dsimp only at h
      cases hds : duration_step profile allowed (total - e) s with
      | none => rw [hds] at h; exact absurd h (by simp)
      | some ds =>
        obtain ⟨dur, s1⟩ := ds
        rw [hds] at h
        dsimp only at h
        rcases hpr : pyRandom s1 with ⟨q, s2⟩
        rw [hpr] at h
        dsimp only at h
        by_cases hrest : q < rest
        · rw [if_pos hrest] at h
          refine ih _ _ _ _ _ _ h ?_
          intro x hx
          rcases List.mem_append.mp hx with hx | hx
          · exact hp x hx
          · left; simpa using hx
        · rw [if_neg hrest] at h
          cases hpk : pick_scale_pitch scale
              (match p.getLast? with
                | some pp => if pp ≠ 0 then some pp else none
                | none => none) lo hi ch s2 with
          | none => rw [hpk] at h; exact absurd h (by simp)
          | some pr =>
            obtain ⟨⟨pitch1, oj⟩, s3⟩ := pr
            rw [hpk] at h
            dsimp only at h
            have hmem1 : pitch1 ∈ scale :=
              pick_scale_pitch_mem scale _ lo hi ch s2 pitch1 oj s3 hpk
            have hen2 : ensure_pitch_in_range pitch1 scale lo hi s3 =
                (pitch1, s3) :=
              ensure_id s3 (hrange pitch1 hmem1).1 (hrange pitch1 hmem1).2
            rw [hen2] at h
            dsimp only at h
            refine ih _ _ _ _ _ _ h ?_
            intro x hx
            rcases List.mem_append.mp hx with hx | hx
            · exact hp x hx
            · right
              have : x = pitch1 := by simpa using hx
              exact this ▸ hmem1
    · rw [if_neg hcond] at h
      cases h
      exact hp

theorem onGrid_sub {a b : ℚ} (ha : onGrid a) (hb : onGrid b) :
    onGrid (a - b) := by
  obtain ⟨m, rfl⟩ := ha
  obtain ⟨n, rfl⟩ := hb
  exact ⟨m - n, by push_cast; ring⟩

open songMaking in
theorem melody_loop_none_sum (scale : List ℤ) (lo hi : ℤ)
    (ch rest total : ℚ) (htotal : onGrid total) :
    ∀ (fuel : ℕ) (p : List ℤ) (d : List ℚ) (e : ℚ) (o : ℕ) (s : RState) out,
      melody_loop scale DURATION_VALUES none lo hi ch rest total fuel
        p d e o s = some out →
      onGrid e → e ≤ total →
      out.2.1.sum = d.sum + (total - e) := by
  intro fuel
  induction fuel with
  | zero =>
    intro p d e o s out h hge hle
    rw [melody_loop] at h
    exact absurd h (by simp)
  | succ n ih =>
    intro p d e o s out h hge hle
    rw [melody_loop] at h
    by_cases hcond : e < total
    · rw [if_pos hcond] at h
      dsimp only at h
      have hrem : 1/8 ≤ total - e :=
        onGrid_pos_ge (onGrid_sub htotal hge) (by linarith)
      have hfil : DURATION_VALUES.filter
          (fun x => decide (x ≤ (total - e) + 1/1000)) ≠ [] :=
        List.ne_nil_of_mem (eighth_mem_filter (total - e) hrem)
      rcases hcd : choose_duration (total - e) DURATION_VALUES s with ⟨dur, s1⟩
      have hspec := choose_duration_spec (total - e) DURATION_VALUES s hfil
      rw [hcd] at hspec
      obtain ⟨hmem, hepsle⟩ := hspec
      have hgridd := (onGrid_alphabet dur hmem).1
      have hd8 := (onGrid_alphabet dur hmem).2
      have hdle : dur ≤ total - e :=
        onGrid_le_of_le_eps hgridd (onGrid_sub htotal hge) hepsle
      have hds : duration_step none DURATION_VALUES (total - e) s =
          some (dur, s1) := by
        show some (choose_duration (total - e) DURATION_VALUES s) =
          some (dur, s1)
        rw [hcd]
      rw [hds] at h
      dsimp only at h
      have hsnap : snap_to_grid (e + dur) GRID_RESOLUTION = e + dur :=
        snap_onGrid (onGrid_add hge hgridd)
      rw [hsnap] at h
      rcases hpr : pyRandom s1 with ⟨q, s2⟩
      rw [hpr] at h
      dsimp only at h
      have hge2 : onGrid (e + dur) := onGrid_add hge hgridd
      have hle2 : e + dur ≤ total := by linarith
      by_cases hrest : q < rest
      · rw [if_pos hrest] at h
        have := ih _ _ _ _ _ _ h hge2 hle2
        rw [this, List.sum_append]
        simp
        ring
      · rw [if_neg hrest] at h
        cases hpk : pick_scale_pitch scale
            (match p.getLast? with
              | some pp => if pp ≠ 0 then some pp else none
              | none => none) lo hi ch s2 with
        | none => rw [hpk] at h; exact absurd h (by simp)
        | some pr =>
          obtain ⟨⟨pitch1, oj⟩, s3⟩ := pr
          rw [hpk] at h
          dsimp only at h
          rcases hen : ensure_pitch_in_range pitch1 scale lo hi s3 with
            ⟨pitch2, s4⟩
          rw [hen] at h
          dsimp only at h
          have := ih _ _ _ _ _ _ h hge2 hle2
          rw [this, List.sum_append]
          simp
          ring
    · rw [if_neg hcond] at h
      cases h
      have : e = total := by linarith
      simp [this]

open songMaking in
theorem melody_loop_none_term (scale : List ℤ) (lo hi : ℤ)
    (ch rest total : ℚ) (hne : scale ≠ []) (htotal : onGrid total) :
    ∀ (fuel : ℕ) (p : List ℤ) (d : List ℚ) (e : ℚ) (o : ℕ) (s : RState),
      onGrid e → e ≤ total → (total - e) * 8 < (fuel : ℚ) →
      ∃ out, melody_loop scale DURATION_VALUES none lo hi ch rest total fuel
          p d e o s = some out ∧
        ∀ x ∈ out.2.1, x ∈ DURATION_VALUES ∨ x ∈ d := by
  intro fuel
  induction fuel with
  | zero =>
    intro p d e o s hge hle hfuel
    exact absurd hfuel (by push_cast; linarith)
  | succ n ih =>
    intro p d e o s hge hle hfuel
    rw [melody_loop]
    by_cases hcond : e < total
    · rw [if_pos hcond]
      dsimp only
      have hrem : 1/8 ≤ total - e :=
        onGrid_pos_ge (onGrid_sub htotal hge) (by linarith)
      have hfil : DURATION_VALUES.filter
          (fun x => decide (x ≤ (total - e) + 1/1000)) ≠ [] :=
        List.ne_nil_of_mem (eighth_mem_filter (total - e) hrem)
      rcases hcd : choose_duration (total - e) DURATION_VALUES s with ⟨dur, s1⟩
      have hspec := choose_duration_spec (total - e) DURATION_VALUES s hfil
      rw [hcd] at hspec
      obtain ⟨hmem, hepsle⟩ := hspec
      have hgridd := (onGrid_alphabet dur hmem).1
      have hd8 := (onGrid_alphabet dur hmem).2
      have hdle : dur ≤ total - e :=
        onGrid_le_of_le_eps hgridd (onGrid_sub htotal hge) hepsle
      have hds : duration_step none DURATION_VALUES (total - e) s =
          some (dur, s1) := by
        show some (choose_duration (total - e) DURATION_VALUES s) =
          some (dur, s1)
        rw [hcd]
      rw [hds]
      dsimp only
      have hsnap : snap_to_grid (e + dur) GRID_RESOLUTION = e + dur :=
        snap_onGrid (onGrid_add hge hgridd)
      rw [hsnap]
      rcases hpr : pyRandom s1 with ⟨q, s2⟩
      dsimp only
      have hge2 : onGrid (e + dur) := onGrid_add hge hgridd
      have hle2 : e + dur ≤ total := by linarith
      have hfuel2 : (total - (e + dur)) * 8 < (n : ℚ) := by
        push_cast at hfuel ⊢
        nlinarith
      by_cases hrest : q < rest
      · rw [if_pos hrest]
        obtain ⟨out, hloop, hout⟩ :=
          ih (p ++ [0]) (d ++ [dur]) (e + dur) o s2 hge2 hle2 hfuel2
        refine ⟨out, hloop, fun x hx => ?_⟩
        rcases hout x hx with hx1 | hx2
        · exact Or.inl hx1
        · rcases List.mem_append.mp hx2 with hx3 | hx4
          · exact Or.inr hx3
          · rw [List.mem_singleton] at hx4
            exact Or.inl (hx4 ▸ hmem)
      · rw [if_neg hrest]
        obtain ⟨pitch1, oj, s3, hpk, hpmem⟩ :=
          pick_scale_pitch_spec scale
            (match p.getLast? with
              | some pp => if pp ≠ 0 then some pp else none
              | none => none) lo hi ch s2 hne
        rw [hpk]
        dsimp only
        rcases hen : ensure_pitch_in_range pitch1 scale lo hi s3 with
          ⟨pitch2, s4⟩
        dsimp only
        obtain ⟨out, hloop, hout⟩ :=
          ih (p ++ [pitch2]) (d ++ [dur]) (e + dur)
            (o + if oj = true then 1 else 0) s4 hge2 hle2 hfuel2
        refine ⟨out, hloop, fun x hx => ?_⟩
        rcases hout x hx with hx1 | hx2
        · exact Or.inl hx1
        · rcases List.mem_append.mp hx2 with hx3 | hx4
          · exact Or.inr hx3
          · rw [List.mem_singleton] at hx4
            exact Or.inl (hx4 ▸ hmem)
    · rw [if_neg hcond]
      exact ⟨(p, d, o, s), rfl, fun x hx => Or.inr hx⟩

open songMaking in
/-- C10: `generate_random_melody` terminates for every well-formed
`HarmonySpec` (meter denominator 4 or 8, nonnegative numerator and
measure count, nonempty pitch range): the elapsed-beats accumulator
stays on the 1/8 grid, every iteration appends an alphabet duration of
at least 1/8 beat, and a fuel budget of more than `8 * total_beats`
iterations suffices for the loop to reach `elapsed >= total` and
return. -/
theorem C10_generation_terminates (mk : ℤ → RState) (spec : HarmonySpec)
    (seed : ℤ) (config : GenConfig) (amb : RState) (fuel : ℕ)
    (hden : spec.meter_denominator = 4 ∨ spec.meter_denominator = 8)
    (hnum : 0 ≤ spec.meter_numerator) (hmeas : 0 ≤ spec.total_measures)
    (hrange : spec.lowest_midi ≤ spec.highest_midi)
    (hfuel : (spec.meter_numerator : ℚ) * (4 / (spec.meter_denominator : ℚ))
        * (spec.total_measures : ℚ) * 8 < (fuel : ℚ)) :
    ∃ pitches durations stats,
      generate_random_melody fuel mk spec seed config amb =
        some (pitches, durations, stats) ∧
      ∀ x ∈ durations, x ∈ DURATION_VALUES := by
  have htotal : onGrid ((spec.meter_numerator : ℚ)
      * (4 / (spec.meter_denominator : ℚ)) * (spec.total_measures : ℚ)) := by
    rcases hden with h4 | h8
    · exact ⟨8 * spec.meter_numerator * spec.total_measures, by
        rw [h4]; push_cast; ring⟩
    · exact ⟨4 * spec.meter_numerator * spec.total_measures, by
        rw [h8]; push_cast; ring⟩
  have hpos : (0 : ℚ) ≤ (spec.meter_numerator : ℚ)
      * (4 / (spec.meter_denominator : ℚ)) * (spec.total_measures : ℚ) := by
    have h1 : (0 : ℚ) ≤ (spec.meter_numerator : ℚ) := by exact_mod_cast hnum
    have h2 : (0 : ℚ) ≤ (spec.total_measures : ℚ) := by exact_mod_cast hmeas
    have h3 : (0 : ℚ) ≤ 4 / (spec.meter_denominator : ℚ) := by
      rcases hden with h4 | h8
      · rw [h4]; norm_num
      · rw [h8]; norm_num
    exact mul_nonneg (mul_nonneg h1 h3) h2
  have hne : (if build_scale_pitch_set spec.tonic_note spec.scale_pattern
      spec.lowest_midi spec.highest_midi = [] then
        int_range spec.lowest_midi spec.highest_midi
      else build_scale_pitch_set spec.tonic_note spec.scale_pattern
        spec.lowest_midi spec.highest_midi) ≠ [] := by
    by_cases hsc : build_scale_pitch_set spec.tonic_note spec.scale_pattern
        spec.lowest_midi spec.highest_midi = []
    · rw [if_pos hsc]
      intro hnil
      have hlen : (int_range spec.lowest_midi spec.highest_midi).length = 0 := by
        rw [hnil]
        rfl
      unfold int_range at hlen
      rw [List.length_map, List.length_range] at hlen
      omega
    · rw [if_neg hsc]
      exact hsc
  obtain ⟨out, hloop, hout⟩ := melody_loop_none_term
    (if build_scale_pitch_set spec.tonic_note spec.scale_pattern
        spec.lowest_midi spec.highest_midi = [] then
      int_range spec.lowest_midi spec.highest_midi
    else build_scale_pitch_set spec.tonic_note spec.scale_pattern
      spec.lowest_midi spec.highest_midi)
    spec.lowest_midi spec.highest_midi
    (config.octave_up_chance.getD (3/100))
    (config.rest_probability.getD (15/100))
    ((spec.meter_numerator : ℚ) * (4 / (spec.meter_denominator : ℚ))
      * (spec.total_measures : ℚ))
    hne htotal fuel [] [] 0 0 (mk seed) onGrid_zero hpos
    (by rw [sub_zero]; exact hfuel)
  obtain ⟨p, d, oe, sf⟩ := out
  have hgen : generate_random_melody fuel mk spec seed config amb =
      match melody_loop
        (if build_scale_pitch_set spec.tonic_note spec.scale_pattern
            spec.lowest_midi spec.highest_midi = [] then
          int_range spec.lowest_midi spec.highest_midi
        else build_scale_pitch_set spec.tonic_note spec.scale_pattern
          spec.lowest_midi spec.highest_midi)
        DURATION_VALUES none spec.lowest_midi spec.highest_midi
        (config.octave_up_chance.getD (3/100))
        (config.rest_probability.getD (15/100))
        ((spec.meter_numerator : ℚ) * (4 / (spec.meter_denominator : ℚ))
          * (spec.total_measures : ℚ)) fuel [] [] 0 0 (mk seed) with
      | none => none
      | some (pitches, durations, octave_events, _) =>
        some (pitches, durations, ⟨0, octave_events, durations.sum, 0⟩) := rfl
  refine ⟨p, d, ⟨0, oe, d.sum, 0⟩, ?_, ?_⟩
  · rw [hgen, hloop]
  · intro x hx
    rcases hout x hx with h1 | h2
    · exact h1
    · exact absurd h2 (List.not_mem_nil x)

/-- Witness for C10 at a one-measure C-major spec with the all-zero
stream and fuel 100. -/
theorem C10_generation_terminates_witness :
    (specCMaj 1).meter_denominator = 4 ∧
    ∃ pitches durations stats,
      songMaking.generate_random_melody 100 mkZero (specCMaj 1) 0
        ⟨none, none, none, none, none⟩ (mkZero 0) =
        some (pitches, durations, stats) ∧
      ∀ x ∈ durations, x ∈ songMaking.DURATION_VALUES :=
  ⟨rfl, C10_generation_terminates mkZero (specCMaj 1) 0
    ⟨none, none, none, none, none⟩ (mkZero 0) 100 (Or.inl rfl)
    (by decide) (by decide) (by decide) (by norm_num [specCMaj])⟩

open songmaking in
theorem invert_walk_length (lastv : ℤ) (l : List (ℤ × ℤ)) :
    (invert_walk lastv l).length = l.length := by
  induction l generalizing lastv with
  | nil => rfl
  | cons hd tl ih =>
    obtain ⟨prev, cur⟩ := hd
    rw [invert_walk]
    by_cases h : 0 < cur
    · rw [if_pos h]
      simp [ih]
    · rw [if_neg h]
      simp [ih]

open songmaking in
theorem apply_subtle_variation_length (p : List ℤ) (s : RState) :
    (apply_subtle_variation p s).1.length = p.length := by
  unfold apply_subtle_variation
  rcases hc : pyChoiceNE VariationKind.transpose
      [VariationKind.neighborTone, VariationKind.inversion] s with ⟨vt, s1⟩
  dsimp only
  cases vt with
  | transpose =>
    rcases hc2 : pyChoiceNE (-2 : ℤ) [-1, 1, 2] s1 with ⟨off, s2⟩
    dsimp only
    simp
  | neighborTone =>
    by_cases h1 : 1 < p.length
    · rw [if_pos h1]
      rcases hr : pyRandintI 0 ((p.length : ℤ) - 1) s1 with ⟨idxZ, s2⟩
      dsimp only
      by_cases h2 : 0 < p.getD idxZ.toNat 0
      · rw [if_pos h2]
        rcases hc3 : pyChoiceNE (-1 : ℤ) [1] s2 with ⟨delta, s3⟩
        dsimp only
        simp
      · rw [if_neg h2]
    · rw [if_neg h1]
  | inversion =>
    by_cases h1 : p.length < 2
    · rw [if_pos h1]
    · rw [if_neg h1]
      cases p with
      | nil => rfl
      | cons anchor tl =>
        dsimp only
        rw [List.length_cons, invert_walk_length, List.length_zip]
        simp

open songmaking in
theorem rebuild_repeats_length (up : List ℤ) (ud : List ℚ)
    (av : Bool) (vp : ℚ) (hu : up.length = ud.length) :
    ∀ (k ri : ℕ) (accP : List ℤ) (accD : List ℚ) (s : RState),
      accP.length = accD.length →
      (rebuild_repeats up ud av vp k ri accP accD s).1.1.length =
        (rebuild_repeats up ud av vp k ri accP accD s).1.2.length := by
  intro k
  induction k with
  | zero =>
    intro ri accP accD s h
    exact h
  | succ n ih =>
    intro ri accP accD s h
    rw [rebuild_repeats]
    by_cases hc : ri = 0 ∨ av = false
    · rw [if_pos hc]
      exact ih _ _ _ _ (by simp [h, hu])
    · rw [if_neg hc]
      rcases hq : pyRandom s with ⟨q, s1⟩
      dsimp only
      by_cases h2 : vp ≤ q
      · rw [if_pos h2]
        exact ih _ _ _ _ (by simp [h, hu])
      · rw [if_neg h2]
        rcases hv : apply_subtle_variation up s1 with ⟨varied, s2⟩
        dsimp only
        have hvl := apply_subtle_variation_length up s1
        rw [hv] at hvl
        dsimp only at hvl
        exact ih _ _ _ _ (by simp [h, hu, hvl])

open songmaking in
theorem apply_motif_repetition_length (p : List ℤ) (d : List ℚ)
    (u : ℚ) (av : Bool) (vp : ℚ) (s : RState) (h : p.length = d.length) :
    (apply_motif_repetition p d u av vp s).1.1.length =
      (apply_motif_repetition p d u av vp s).1.2.length := by
  unfold apply_motif_repetition
  by_cases h1 : p = [] ∨ u ≤ 0
  · rw [if_pos h1]
    exact h
  · rw [if_neg h1]
    dsimp only
    by_cases h2 : (extract_unit u (p.zip d) 0).map Prod.fst = []
    · rw [if_pos h2]
      exact h
    · rw [if_neg h2]
      by_cases h3 : pyInt (d.sum / u) < 2
      · rw [if_pos h3]
        exact h
      · rw [if_neg h3]
        rcases hr : rebuild_repeats ((extract_unit u (p.zip d) 0).map Prod.fst)
            ((extract_unit u (p.zip d) 0).map Prod.snd) av vp
            (pyInt (d.sum / u)).toNat 0 [] [] s with ⟨⟨np, nd⟩, s1⟩
        have hrl := rebuild_repeats_length
          ((extract_unit u (p.zip d) 0).map Prod.fst)
          ((extract_unit u (p.zip d) 0).map Prod.snd) av vp (by simp)
          (pyInt (d.sum / u)).toNat 0 [] [] s rfl
        rw [hr] at hrl
        dsimp only at hrl
        by_cases h4 : d.length < nd.length
        · rw [if_pos h4]
          simp [hrl]
        · rw [if_neg h4]
          exact hrl

open songMaking songmaking in
/-- C2: for every melody returned by the structure-aware random
generator, `len(pitches) = len(durations)` holds unconditionally; and
when no `StructureSpec` is attached (meter denominator 4 or 8,
nonnegative numerator and measure count) the duration sum equals
`total_measures * beats_per_bar` exactly.  (With a repeat unit attached
the sum claim fails: see the counterexample.) -/
theorem C2_melody_invariants (fuel : ℕ) (mk : ℤ → RState)
    (spec : HarmonySpec) (seed : ℤ) (config : GenConfig)
    (ss : Option MelodyStructureSpec)
    (p : List ℤ) (d : List ℚ) (st : DebugStats)
    (hout : songmaking.generate_random_melody fuel mk spec seed config ss =
      some (p, d, st)) :
    p.length = d.length ∧
    (ss = none →
      (spec.meter_denominator = 4 ∨ spec.meter_denominator = 8) →
      0 ≤ spec.meter_numerator → 0 ≤ spec.total_measures →
      d.sum = (spec.meter_numerator : ℚ) * (4 / (spec.meter_denominator : ℚ))
        * (spec.total_measures : ℚ)) := by
  constructor
  · unfold songmaking.generate_random_melody at hout
    dsimp only at hout
    split at hout
    · exact absurd hout (by simp)
    · rename_i pitches0 durations0 oe s1 heq
      have hlen0 := melody_loop_len _ _ _ _ _ _ _ _ _ _ _ _ _ _ _ heq rfl
      dsimp only at hlen0
      split at hout
      · rename_i st0
        split at hout
        · rename_i u hu
          split at hout
          · rcases hmr : apply_motif_repetition pitches0 durations0 u
                st0.allow_motif_variation st0.variation_probability s1 with
              ⟨⟨mp, md⟩, s2⟩
            rw [hmr] at hout
            dsimp only at hout
            have hml := apply_motif_repetition_length pitches0 durations0 u
              st0.allow_motif_variation st0.variation_probability s1 hlen0
            rw [hmr] at hml
            dsimp only at hml
            simp only [Option.some_inj, Prod.mk.injEq] at hout
            obtain ⟨hp, hd, _⟩ := hout
            rw [← hp, ← hd]
            exact hml
          · simp only [Option.some_inj, Prod.mk.injEq] at hout
            obtain ⟨hp, hd, _⟩ := hout
            rw [← hp, ← hd]
            exact hlen0
        · simp only [Option.some_inj, Prod.mk.injEq] at hout
          obtain ⟨hp, hd, _⟩ := hout
          rw [← hp, ← hd]
          exact hlen0
      · simp only [Option.some_inj, Prod.mk.injEq] at hout
        obtain ⟨hp, hd, _⟩ := hout
        rw [← hp, ← hd]
        exact hlen0
  · intro hss hden hnum hmeas
    subst hss
    have htotal : onGrid ((spec.meter_numerator : ℚ)
        * (4 / (spec.meter_denominator : ℚ)) * (spec.total_measures : ℚ)) := by
      rcases hden with h4 | h8
      · exact ⟨8 * spec.meter_numerator * spec.total_measures, by
          rw [h4]; push_cast; ring⟩
      · exact ⟨4 * spec.meter_numerator * spec.total_measures, by
          rw [h8]; push_cast; ring⟩
    have hpos : (0 : ℚ) ≤ (spec.meter_numerator : ℚ)
        * (4 / (spec.meter_denominator : ℚ)) * (spec.total_measures : ℚ) := by
      have h1 : (0 : ℚ) ≤ (spec.meter_numerator : ℚ) := by exact_mod_cast hnum
      have h2 : (0 : ℚ) ≤ (spec.total_measures : ℚ) := by exact_mod_cast hmeas
      have h3 : (0 : ℚ) ≤ 4 / (spec.meter_denominator : ℚ) := by
        rcases hden with h4 | h8
        · rw [h4]; norm_num
        · rw [h8]; norm_num
      exact mul_nonneg (mul_nonneg h1 h3) h2
    unfold songmaking.generate_random_melody at hout
    dsimp only at hout
    split at hout
    · exact absurd hout (by simp)
    · rename_i pitches0 durations0 oe s1 heq
      simp only [Option.some_inj, Prod.mk.injEq] at hout
      obtain ⟨hp, hd, _⟩ := hout
      unfold songMaking.get_discrete_duration_values at heq
      have hsum := melody_loop_none_sum _ spec.lowest_midi spec.highest_midi
        _ _ _ htotal fuel [] [] 0 0 (mk seed) _ heq onGrid_zero hpos
      dsimp only at hsum
      rw [← hd, hsum, List.sum_nil, zero_add, sub_zero]

/-- Witness for C2 at a one-measure C-major spec, all-zero stream, no
structure spec: result `([0], [4])` with sum 4 = 4 * (4/4) * 1. -/
theorem C2_melody_invariants_witness :
    songmaking.generate_random_melody 100 mkZero (specCMaj 1) 0
      ⟨none, none, none, none, none⟩ none =
      some ([0], [4], ⟨0, 0, 4, 0⟩) ∧
    ([0] : List ℤ).length = ([4] : List ℚ).length ∧
    ([4] : List ℚ).sum = ((specCMaj 1).meter_numerator : ℚ)
      * (4 / ((specCMaj 1).meter_denominator : ℚ))
      * ((specCMaj 1).total_measures : ℚ) := by
  have h : songmaking.generate_random_melody 100 mkZero (specCMaj 1) 0
      ⟨none, none, none, none, none⟩ none =
      some ([0], [4], ⟨0, 0, 4, 0⟩) := by decide
  refine ⟨h, ?_, ?_⟩
  · exact (C2_melody_invariants 100 mkZero (specCMaj 1) 0
      ⟨none, none, none, none, none⟩ none [0] [4] ⟨0, 0, 4, 0⟩ h).1
  · exact (C2_melody_invariants 100 mkZero (specCMaj 1) 0
      ⟨none, none, none, none, none⟩ none [0] [4] ⟨0, 0, 4, 0⟩ h).2
      rfl (Or.inl rfl) (by decide) (by decide)

theorem pyChoice_mem {α : Type} {l : List α} {x : α} {s s' : RState}
    (h : pyChoice l s = some (x, s')) : x ∈ l := by
  cases l with
  | nil => exact absurd h (by simp [pyChoice])
  | cons a rest =>
    unfold pyChoice at h
    have hm := pyChoiceNE_mem a rest s
    rw [Option.some_inj.mp h] at hm
    exact hm

open songMaking in
theorem pyChoiceSeq_mem {α : Type} (l : List α) :
    ∀ (n : ℕ) (s : RState) (xs : List α) (s1 : RState),
      pyChoiceSeq l n s = some (xs, s1) → ∀ x ∈ xs, x ∈ l := by
  intro n
  induction n with
  | zero =>
    intro s xs s1 h x hx
    rw [pyChoiceSeq] at h
    simp only [Option.some_inj, Prod.mk.injEq] at h
    rw [← h.1] at hx
    exact absurd hx (List.not_mem_nil x)
  | succ n ih =>
    intro s xs s1 h x hx
    rw [pyChoiceSeq] at h
    cases hc : pyChoice l s with
    | none =>
      rw [hc] at h
      exact absurd h (by simp)
    | some pr =>
      obtain ⟨y, s2⟩ := pr
      rw [hc] at h
      dsimp only at h
      cases hc2 : pyChoiceSeq l n s2 with
      | none =>
        rw [hc2] at h
        exact absurd h (by simp)
      | some pr2 =>
        obtain ⟨ys, s3⟩ := pr2
        rw [hc2] at h
        dsimp only at h
        simp only [Option.some_inj, Prod.mk.injEq] at h
        rw [← h.1] at hx
        rcases List.mem_cons.mp hx with h1 | h2
        · rw [h1]
          exact pyChoice_mem hc
        · exact ih s2 ys s3 hc2 x h2

theorem foldl_nearest_mem (pitch a : ℤ) (rest : List ℤ) :
    rest.foldl
      (fun best p => if |p - pitch| < |best - pitch| then p else best) a ∈
      a :: rest := by
  induction rest generalizing a with
  | nil => simp
  | cons hd tl ih =>
    rw [List.foldl_cons]
    rcases List.mem_cons.mp
        (ih (if |hd - pitch| < |a - pitch| then hd else a)) with h1 | h2
    · rw [h1]
      by_cases h : |hd - pitch| < |a - pitch|
      · rw [if_pos h]
        simp
      · rw [if_neg h]
        simp
    · simp [h2]

open songMaking in
theorem quantize_mem {pitch q : ℤ} {scale : List ℤ}
    (h : quantize_to_nearest_scale_note pitch scale = some q) : q ∈ scale := by
  unfold quantize_to_nearest_scale_note at h
  by_cases hp : pitch ∈ scale
  · rw [if_pos hp] at h
    rw [← Option.some_inj.mp h]
    exact hp
  · rw [if_neg hp] at h
    cases scale with
    | nil => exact absurd h (by simp)
    | cons a rest =>
      rw [← Option.some_inj.mp h]
      exact foldl_nearest_mem pitch a rest

open songmaking in
theorem extract_unit_subset (u : ℚ) :
    ∀ (pd : List (ℤ × ℚ)) (acc : ℚ) (x : ℤ × ℚ),
      x ∈ extract_unit u pd acc → x ∈ pd := by
  intro pd
  induction pd with
  | nil =>
    intro acc x hx
    exact absurd hx (List.not_mem_nil x)
  | cons hd tl ih =>
    intro acc x hx
    obtain ⟨p, d⟩ := hd
    rw [extract_unit] at hx
    by_cases h : acc < u - 1/100
    · rw [if_pos h] at hx
      rcases List.mem_cons.mp hx with h1 | h2
      · rw [h1]
        exact List.mem_cons_self _ _
      · exact List.mem_cons_of_mem _ (ih _ _ h2)
    · rw [if_neg h] at hx
      exact absurd hx (List.not_mem_nil x)

open songmaking in
theorem apply_motif_noVar_mem (p : List ℤ) (d : List ℚ) (u vp : ℚ)
    (s : RState) (x : ℤ)
    (hx : x ∈ (apply_motif_repetition p d u false vp s).1.1) : x ∈ p := by
  unfold apply_motif_repetition at hx
  by_cases h1 : p = [] ∨ u ≤ 0
  · rw [if_pos h1] at hx
    exact hx
  · rw [if_neg h1] at hx
    dsimp only at hx
    by_cases h2 : (extract_unit u (p.zip d) 0).map Prod.fst = []
    · rw [if_pos h2] at hx
      exact hx
    · rw [if_neg h2] at hx
      by_cases h3 : pyInt (d.sum / u) < 2
      · rw [if_pos h3] at hx
        exact hx
      · rw [if_neg h3] at hx
        rw [rebuild_no_variation] at hx
        dsimp only at hx
        simp only [List.nil_append] at hx
        have hx2 : x ∈ (List.replicate (pyInt (d.sum / u)).toNat
            ((extract_unit u (p.zip d) 0).map Prod.fst)).flatten := by
          by_cases h4 : d.length <
              ((List.replicate (pyInt (d.sum / u)).toNat
                ((extract_unit u (p.zip d) 0).map Prod.snd)).flatten).length
          · rw [if_pos h4] at hx
            have := List.take_subset d.length _ hx
            simpa using this
          · rw [if_neg h4] at hx
            simpa using hx
        rw [List.mem_flatten] at hx2
        obtain ⟨blk, hblk, hxblk⟩ := hx2
        rw [List.eq_of_mem_replicate hblk] at hxblk
        rw [List.mem_map] at hxblk
        obtain ⟨pr, hpr, hpx⟩ := hxblk
        have := extract_unit_subset u (p.zip d) 0 pr hpr
        rw [← hpx]
        exact (List.of_mem_zip this).1

open songMaking in
theorem markov_loop_mem (tr : List (List ℤ × List ℤ)) (mo : ℕ)
    (scale : List ℤ) (allowed : List ℚ) (lo hi : ℤ) (total : ℚ)
    (hrange : ∀ q ∈ scale, lo ≤ q ∧ q ≤ hi) :
    ∀ (fuel : ℕ) (p : List ℤ) (d : List ℚ) (e : ℚ) (r : ℕ) (s : RState) out,
      markov_loop tr mo scale allowed lo hi total fuel p d e r s =
        some out →
      (∀ x ∈ p, x ∈ scale) → ∀ x ∈ out.1, x ∈ scale := by
  intro fuel
  induction fuel with
  | zero =>
    intro p d e r s out h hp
    rw [markov_loop] at h
    exact absurd h (by simp)
  | succ n ih =>
    intro p d e r s out h hp
    rw [markov_loop] at h
    by_cases hcond : e < total
    · rw [if_pos hcond] at h
      dsimp only at h
      rcases hcd : choose_duration (total - e) allowed s with ⟨dur, s1⟩
      rw [hcd] at h
      dsimp only at h
      by_cases h2 : snap_to_grid (e + dur) GRID_RESOLUTION < total
      · rw [if_pos h2] at h
        rcases hpn : predict_next tr
            (if mo = 0 then p else p.drop (p.length - mo)) s1 with ⟨next0, s2⟩
        rw [hpn] at h
        dsimp only at h
        by_cases hq : next0 ∈ scale
        · rw [if_pos hq] at h
          dsimp only at h
          obtain ⟨hl, hh⟩ := hrange next0 hq
          rw [ensure_id s2 hl hh] at h
          dsimp only at h
          refine ih _ _ _ _ _ _ h ?_
          intro y hy
          rcases List.mem_append.mp hy with h3 | h4
          · exact hp y h3
          · rw [List.mem_singleton] at h4
            rw [h4]
            exact hq
        · rw [if_neg hq] at h
          cases hqz : quantize_to_nearest_scale_note next0 scale with
          | none =>
            rw [hqz] at h
            exact absurd h (by simp)
          | some qv =>
            rw [hqz] at h
            rw [Option.map_some'] at h
            dsimp only at h
            have hqm : qv ∈ scale := quantize_mem hqz
            obtain ⟨hl, hh⟩ := hrange qv hqm
            rw [ensure_id s2 hl hh] at h
            dsimp only at h
            refine ih _ _ _ _ _ _ h ?_
            intro y hy
            rcases List.mem_append.mp hy with h3 | h4
            · exact hp y h3
            · rw [List.mem_singleton] at h4
              rw [h4]
              exact hqm
      · rw [if_neg h2] at h
        exact ih _ _ _ _ _ _ h hp
    · rw [if_neg hcond] at h
      rw [Option.some_inj] at h
      rw [← h]
      exact hp

open songMaking songmaking in
/-- C5: with a nonempty scale pitch set, every pitch `p > 0` returned by
the structure-aware random generator is a member of the scale set
whenever motif variation is off (no structure spec, or
`allow_motif_variation = false`); and every pitch returned by the
sequence-model (markov) generator is a member of the scale set
(quantization to the nearest member is applied before any pitch is
kept).  With motif variation on, the transpose/neighbor/inversion
variations work in semitones and can leave the scale: see the
counterexample. -/
theorem C5_scale_membership (fuel : ℕ) (mk : ℤ → RState)
    (spec : HarmonySpec) (seed : ℤ) (config : GenConfig)
    (ss : Option MelodyStructureSpec)
    (hscale : build_scale_pitch_set spec.tonic_note spec.scale_pattern
      spec.lowest_midi spec.highest_midi ≠ [])
    (hvar : ss = none ∨
      ∃ stc, ss = some stc ∧ stc.allow_motif_variation = false) :
    (∀ p d st, songmaking.generate_random_melody fuel mk spec seed config
        ss = some (p, d, st) →
      ∀ x ∈ p, x = 0 ∨ x ∈ build_scale_pitch_set spec.tonic_note
        spec.scale_pattern spec.lowest_midi spec.highest_midi) ∧
    (∀ p d st amb, generate_markov_melody fuel mk spec seed config amb =
        some (p, d, st) →
      ∀ x ∈ p, x ∈ build_scale_pitch_set spec.tonic_note
        spec.scale_pattern spec.lowest_midi spec.highest_midi) := by
  have hrange := build_scale_range spec.tonic_note spec.scale_pattern
    spec.lowest_midi spec.highest_midi
  constructor
  · intro p d st hout x hx
    unfold songmaking.generate_random_melody at hout
    dsimp only at hout
    rw [if_neg hscale] at hout
    split at hout
    · exact absurd hout (by simp)
    · rename_i pitches0 durations0 oe s1 heq
      have hmem0 := melody_loop_mem _ _ _ _ _ _ _ _ hrange _ _ _ _ _ _ _
        heq (by intro y hy; exact absurd hy (List.not_mem_nil y))
      dsimp only at hmem0
      rcases hvar with rfl | ⟨stc, rfl, hav⟩
      · simp only [Option.some_inj, Prod.mk.injEq] at hout
        obtain ⟨hp, _, _⟩ := hout
        rw [← hp] at hx
        exact hmem0 x hx
      · dsimp only at hout
        split at hout
        · rename_i u hu
          split at hout
          · rw [hav] at hout
            rcases hmr : apply_motif_repetition pitches0 durations0 u
                false stc.variation_probability s1 with ⟨⟨mp, md⟩, s2⟩
            rw [hmr] at hout
            dsimp only at hout
            simp only [Option.some_inj, Prod.mk.injEq] at hout
            obtain ⟨hp, _, _⟩ := hout
            rw [← hp] at hx
            have hx0 : x ∈ (apply_motif_repetition pitches0 durations0 u
                false stc.variation_probability s1).1.1 := by
              rw [hmr]
              exact hx
            exact hmem0 x (apply_motif_noVar_mem pitches0 durations0 u
              stc.variation_probability s1 x hx0)
          · simp only [Option.some_inj, Prod.mk.injEq] at hout
            obtain ⟨hp, _, _⟩ := hout
            rw [← hp] at hx
            exact hmem0 x hx
        · simp only [Option.some_inj, Prod.mk.injEq] at hout
          obtain ⟨hp, _, _⟩ := hout
          rw [← hp] at hx
          exact hmem0 x hx
  · intro p d st amb hout x hx
    unfold generate_markov_melody at hout
    dsimp only at hout
    split at hout
    · exact absurd hout (by simp)
    · rename_i tp s1 heq1
      rw [if_neg hscale] at hout
      split at hout
      · exact absurd hout (by simp)
      · rename_i pitches0 s2 heq2
        split at hout
        · exact absurd hout (by simp)
        · rename_i pitches durations rejections s3 heq3
          simp only [Option.some_inj, Prod.mk.injEq] at hout
          obtain ⟨hp, _, _⟩ := hout
          have h0 := pyChoiceSeq_mem _ _ _ _ _ heq2
          have hm := markov_loop_mem _ _ _ _ _ _ _ hrange _ _ _ _ _ _ _
            heq3 h0
          dsimp only at hm
          rw [← hp] at hx
          exact hm x (List.take_subset _ _ hx)

/-- Witness for C5 at a one-measure C-major spec with the all-zero
stream: the random generator returns pitches `[0]` (a rest) and the
markov generator returns `[60]`, a scale member. -/
theorem C5_scale_membership_witness :
    songMaking.build_scale_pitch_set (specCMaj 1).tonic_note
      (specCMaj 1).scale_pattern (specCMaj 1).lowest_midi
      (specCMaj 1).highest_midi ≠ [] ∧
    (∀ x ∈ ([0] : List ℤ), x = 0 ∨
      x ∈ songMaking.build_scale_pitch_set (specCMaj 1).tonic_note
        (specCMaj 1).scale_pattern (specCMaj 1).lowest_midi
        (specCMaj 1).highest_midi) ∧
    (∀ x ∈ ([60] : List ℤ),
      x ∈ songMaking.build_scale_pitch_set (specCMaj 1).tonic_note
        (specCMaj 1).scale_pattern (specCMaj 1).lowest_midi
        (specCMaj 1).highest_midi) := by
  have hC5 := C5_scale_membership 100 mkZero (specCMaj 1) 0
    ⟨none, none, none, none, none⟩ none (by decide) (Or.inl rfl)
  refine ⟨by decide, ?_, ?_⟩
  · exact hC5.1 [0] [4] ⟨0, 0, 4, 0⟩ (by decide)
  · exact hC5.2 [60] [4] ⟨0, 0, 4, 0⟩ (mkZero 0) (by decide)

open songMaking songmaking in
theorem scored_loop_eq (fuel : ℕ) (mk : ℤ → RState) (spec : HarmonySpec)
    (seed : ℤ) (config : GenConfig) (ss : Option MelodyStructureSpec)
    (sp : List ℤ) (vd : List ℚ) (ma : ℚ) :
    ∀ (r attempt : ℕ) (cands : List Candidate) (rej : ℕ),
      scored_loop fuel mk spec seed config ss sp vd ma r attempt =
        some (cands, rej) →
      cands = (List.range' attempt r).filterMap
        (fun (j : ℕ) => candidate_keep sp vd ma ss
          (generate_random_melody fuel mk spec (seed + (j : ℤ) * 1000)
            config ss)) := by
  intro r
  induction r with
  | zero =>
    intro attempt cands rej h
    rw [scored_loop] at h
    simp only [Option.some_inj, Prod.mk.injEq] at h
    rw [← h.1]
    rfl
  | succ n ih =>
    intro attempt cands rej h
    rw [scored_loop] at h
    dsimp only at h
    have hr : List.range' attempt (n + 1) =
        attempt :: List.range' (attempt + 1) n := rfl
    rw [hr, List.filterMap_cons]
    cases hg : generate_random_melody fuel mk spec
        (seed + (attempt : ℤ) * 1000) config ss with
    | none =>
      rw [hg] at h
      exact absurd h (by simp)
    | some t =>
      obtain ⟨pitches, durations, dstats⟩ := t
      rw [hg] at h
      dsimp only at h
      unfold candidate_keep
      dsimp only
      by_cases hv : pitches.any
          (fun p => decide (0 < p) && !(is_pitch_in_scale p sp)) = true
      · rw [if_pos hv] at h ⊢
        cases hrec : scored_loop fuel mk spec seed config ss sp vd ma n
            (attempt + 1) with
        | none =>
          rw [hrec] at h
          exact absurd h (by simp)
        | some pr =>
          rw [hrec, Option.map_some'] at h
          simp only [Option.some_inj, Prod.mk.injEq] at h
          rw [← h.1]
          exact ih (attempt + 1) pr.1 pr.2 (by rw [hrec])
      · rw [if_neg hv] at h ⊢
        by_cases hid : durations.any
            (fun dur => !(vd.any (fun v => decide (|dur - v| < 1/1000)))) =
              true
        · rw [if_pos hid] at h ⊢
          exact ih (attempt + 1) cands rej h
        · rw [if_neg hid] at h ⊢
          by_cases hsn : (pitches.filter (fun p => decide (0 < p))).length < 4
          · rw [if_pos hsn] at h ⊢
            exact ih (attempt + 1) cands rej h
          · rw [if_neg hsn] at h ⊢
            cases ha : aggregate_melody_score
                (pitches.filter (fun p => decide (0 < p))) durations none
                ss with
            | none =>
              rw [ha] at h
              exact absurd h (by simp)
            | some scm =>
              obtain ⟨score, metrics⟩ := scm
              rw [ha] at h
              dsimp only at h ⊢
              by_cases hth : ma ≤ score
              · rw [if_pos hth] at h ⊢
                cases hrec : scored_loop fuel mk spec seed config ss sp vd
                    ma n (attempt + 1) with
                | none =>
                  rw [hrec] at h
                  exact absurd h (by simp)
                | some pr =>
                  rw [hrec, Option.map_some'] at h
                  simp only [Option.some_inj, Prod.mk.injEq] at h
                  rw [← h.1]
                  rw [ih (attempt + 1) pr.1 pr.2 (by rw [hrec])]
                  rfl
              · rw [if_neg hth] at h ⊢
                exact ih (attempt + 1) cands rej h

open songmaking in
theorem mem_insert_by_score {x c : Candidate} {l : List Candidate} :
    x ∈ insert_by_score c l ↔ x = c ∨ x ∈ l := by
  induction l with
  | nil => simp [insert_by_score]
  | cons d ds ih =>
    rw [insert_by_score]
    by_cases h : d.score < c.score
    · rw [if_pos h]
      simp [List.mem_cons]
    · rw [if_neg h]
      rw [List.mem_cons, ih, List.mem_cons]
      tauto

open songmaking in
theorem mem_sort_candidates {x : Candidate} {l : List Candidate} :
    x ∈ sort_candidates l ↔ x ∈ l := by
  suffices h : ∀ (l acc : List Candidate),
      x ∈ l.foldl (fun a c => insert_by_score c a) acc ↔ x ∈ acc ∨ x ∈ l by
    have h2 := h l []
    rw [sort_candidates, h2]
    simp
  intro l
  induction l with
  | nil =>
    intro acc
    simp
  | cons d ds ih =>
    intro acc
    rw [List.foldl_cons, ih, mem_insert_by_score, List.mem_cons]
    tauto

open songmaking in
theorem insert_by_score_pairwise {c : Candidate} {l : List Candidate}
    (h : l.Pairwise (fun a b => b.score ≤ a.score)) :
    (insert_by_score c l).Pairwise (fun a b => b.score ≤ a.score) := by
  induction l with
  | nil => simp [insert_by_score]
  | cons d ds ih =>
    rw [insert_by_score]
    rw [List.pairwise_cons] at h
    obtain ⟨hd, hds⟩ := h
    by_cases hlt : d.score < c.score
    · rw [if_pos hlt]
      rw [List.pairwise_cons]
      constructor
      · intro y hy
        rcases List.mem_cons.mp hy with h1 | h2
        · rw [h1]
          exact le_of_lt hlt
        · exact le_trans (hd y h2) (le_of_lt hlt)
      · rw [List.pairwise_cons]
        exact ⟨hd, hds⟩
    · rw [if_neg hlt]
      rw [List.pairwise_cons]
      constructor
      · intro y hy
        rcases mem_insert_by_score.mp hy with h1 | h2
        · rw [h1]
          exact le_of_not_lt hlt
        · exact hd y h2
      · exact ih hds

open songmaking in
theorem sort_candidates_pairwise (l : List Candidate) :
    (sort_candidates l).Pairwise (fun a b => b.score ≤ a.score) := by
  suffices h : ∀ (l acc : List Candidate),
      acc.Pairwise (fun a b => b.score ≤ a.score) →
      (l.foldl (fun a c => insert_by_score c a) acc).Pairwise
        (fun a b => b.score ≤ a.score) by
    exact h l [] (by simp)
  intro l
  induction l with
  | nil =>
    intro acc hacc
    exact hacc
  | cons d ds ih =>
    intro acc hacc
    rw [List.foldl_cons]
    exact ih _ (insert_by_score_pairwise hacc)

open songMaking songmaking in
theorem candidate_keep_score {sp : List ℤ} {vd : List ℚ} {ma : ℚ}
    {ss : Option MelodyStructureSpec}
    {r : Option (List ℤ × List ℚ × DebugStats)} {c : Candidate}
    (h : candidate_keep sp vd ma ss r = some c) : ma ≤ c.score := by
  unfold candidate_keep at h
  cases r with
  | none => exact absurd h (by simp)
  | some t =>
    obtain ⟨pitches, durations, dstats⟩ := t
    dsimp only at h
    split at h
    · exact absurd h (by simp)
    · split at h
      · exact absurd h (by simp)
      · split at h
        · exact absurd h (by simp)
        · split at h
          · exact absurd h (by simp)
          · rename_i score metrics heq
            split at h
            · rename_i hth
              rw [← Option.some_inj.mp h]
              exact hth
            · exact absurd h (by simp)

open songMaking in
theorem compute_interval_complexity_total (notes : List ℤ) :
    ∃ q, compute_interval_complexity notes = some q := by
  unfold compute_interval_complexity
  by_cases h : notes.length < 2
  · rw [if_pos h]
    exact ⟨0, rfl⟩
  · rw [if_neg h]
    dsimp only
    by_cases hj : interval_jumps notes = []
    · rw [if_pos hj]
      exact ⟨0, rfl⟩
    · rw [if_neg hj]
      unfold pyDiv
      rw [if_neg (by
        rw [Nat.cast_eq_zero]
        omega)]
      exact ⟨_, rfl⟩

open songMaking in
theorem measure_contour_balance_total (notes : List ℤ) :
    ∃ q, measure_contour_balance notes = some q := by
  unfold measure_contour_balance
  by_cases h : notes.length < 2
  · rw [if_pos h]
    exact ⟨1/2, rfl⟩
  · rw [if_neg h]
    dsimp only
    by_cases hz : ((notes.zip notes.tail).filter
          (fun pr => decide (pr.1 < pr.2))).length +
        ((notes.zip notes.tail).filter
          (fun pr => decide (pr.2 < pr.1))).length = 0
    · rw [if_pos hz]
      exact ⟨0, rfl⟩
    · rw [if_neg hz]
      unfold pyDiv
      rw [if_neg (by
        rw [Nat.cast_eq_zero]
        omega)]
      exact ⟨_, rfl⟩

open songMaking in
theorem interval_jumps_length (notes : List ℤ) :
    (interval_jumps notes).length = min notes.length notes.tail.length := by
  unfold interval_jumps
  rw [List.length_map, List.length_zip]

open songMaking in
theorem check_leap_smoothness_total (notes : List ℤ) (mj : ℤ) :
    ∃ q, check_leap_smoothness notes mj = some q := by
  unfold check_leap_smoothness
  by_cases h : notes.length < 2
  · rw [if_pos h]
    exact ⟨1, rfl⟩
  · rw [if_neg h]
    dsimp only
    unfold pyDiv
    rw [if_neg (by
      rw [Nat.cast_eq_zero, interval_jumps_length]
      rw [List.length_tail]
      omega)]
    exact ⟨_, rfl⟩

open songMaking in
theorem assess_pitch_variety_total (notes : List ℤ) :
    ∃ q, assess_pitch_variety notes = some q := by
  unfold assess_pitch_variety
  by_cases h : notes = []
  · rw [if_pos h]
    exact ⟨0, rfl⟩
  · rw [if_neg h]
    exact ⟨_, rfl⟩

open songMaking in
theorem evaluate_rhythmic_entropy_total (durs : List ℚ) :
    ∃ q, evaluate_rhythmic_entropy durs = some q := by
  unfold evaluate_rhythmic_entropy
  by_cases h : durs.length < 2
  · rw [if_pos h]
    exact ⟨0, rfl⟩
  · rw [if_neg h]
    exact ⟨_, rfl⟩

open songMaking in
theorem compute_phrase_coherence_total (notes : List ℤ) :
    ∃ q, compute_phrase_coherence notes 4 = some q := by
  unfold compute_phrase_coherence
  rw [if_neg (by decide)]
  by_cases h : notes.length < 4 * 2
  · rw [if_pos h]
    exact ⟨1/2, rfl⟩
  · rw [if_neg h]
    dsimp only
    by_cases h2 : ((List.range ((notes.length - 4) / 4 + 1)).map
        (fun k => (notes.drop (k * 4)).take 4)).length < 2
    · rw [if_pos h2]
      exact ⟨1/2, rfl⟩
    · rw [if_neg h2]
      rcases hcp : countPairs ((List.range ((notes.length - 4) / 4 + 1)).map
          (fun k => (notes.drop (k * 4)).take 4)) with ⟨mc, cmp⟩
      dsimp only
      by_cases h3 : cmp = 0
      · rw [if_pos h3]
        exact ⟨1/2, rfl⟩
      · rw [if_neg h3]
        unfold pyDiv
        rw [if_neg (by
          rw [Nat.cast_eq_zero]
          exact h3)]
        exact ⟨_, rfl⟩

open songMaking in
theorem aggregate_total (notes : List ℤ) (durs : List ℚ)
    (w : Option (List (MetricName × ℚ)))
    (ss : Option songmaking.MelodyStructureSpec) :
    ∃ r, aggregate_melody_score notes durs w ss = some r := by
  obtain ⟨c, hc⟩ := compute_interval_complexity_total notes
  obtain ⟨ct, hct⟩ := measure_contour_balance_total notes
  obtain ⟨sm, hsm⟩ := check_leap_smoothness_total notes 7
  obtain ⟨v, hv⟩ := assess_pitch_variety_total notes
  obtain ⟨rh, hrh⟩ := evaluate_rhythmic_entropy_total durs
  obtain ⟨co, hco⟩ := compute_phrase_coherence_total notes
  have hs : (aggregate_melody_score notes durs w ss).isSome = true := by
    unfold aggregate_melody_score
    rw [hc, hct, hsm, hv, hrh, hco]
    rfl
  exact ⟨(aggregate_melody_score notes durs w ss).get hs,
    (Option.some_get hs).symm⟩

open songMaking songmaking in
theorem songmaking_random_total (mk : ℤ → RState) (spec : HarmonySpec)
    (seed : ℤ) (config : GenConfig) (fuel : ℕ)
    (hden : spec.meter_denominator = 4 ∨ spec.meter_denominator = 8)
    (hnum : 0 ≤ spec.meter_numerator) (hmeas : 0 ≤ spec.total_measures)
    (hrange : spec.lowest_midi ≤ spec.highest_midi)
    (hfuel : (spec.meter_numerator : ℚ) * (4 / (spec.meter_denominator : ℚ))
        * (spec.total_measures : ℚ) * 8 < (fuel : ℚ)) :
    ∃ r, songmaking.generate_random_melody fuel mk spec seed config none =
      some r := by
  have htotal : onGrid ((spec.meter_numerator : ℚ)
      * (4 / (spec.meter_denominator : ℚ)) * (spec.total_measures : ℚ)) := by
    rcases hden with h4 | h8
    · exact ⟨8 * spec.meter_numerator * spec.total_measures, by
        rw [h4]; push_cast; ring⟩
    · exact ⟨4 * spec.meter_numerator * spec.total_measures, by
        rw [h8]; push_cast; ring⟩
  have hpos : (0 : ℚ) ≤ (spec.meter_numerator : ℚ)
      * (4 / (spec.meter_denominator : ℚ)) * (spec.total_measures : ℚ) := by
    have h1 : (0 : ℚ) ≤ (spec.meter_numerator : ℚ) := by exact_mod_cast hnum
    have h2 : (0 : ℚ) ≤ (spec.total_measures : ℚ) := by exact_mod_cast hmeas
    have h3 : (0 : ℚ) ≤ 4 / (spec.meter_denominator : ℚ) := by
      rcases hden with h4 | h8
      · rw [h4]; norm_num
      · rw [h8]; norm_num
    exact mul_nonneg (mul_nonneg h1 h3) h2
  have hne : (if build_scale_pitch_set spec.tonic_note spec.scale_pattern
      spec.lowest_midi spec.highest_midi = [] then
        int_range spec.lowest_midi spec.highest_midi
      else build_scale_pitch_set spec.tonic_note spec.scale_pattern
        spec.lowest_midi spec.highest_midi) ≠ [] := by
    by_cases hsc : build_scale_pitch_set spec.tonic_note spec.scale_pattern
        spec.lowest_midi spec.highest_midi = []
    · rw [if_pos hsc]
      intro hnil
      have hlen : (int_range spec.lowest_midi spec.highest_midi).length =
          0 := by
        rw [hnil]
        rfl
      unfold int_range at hlen
      rw [List.length_map, List.length_range] at hlen
      omega
    · rw [if_neg hsc]
      exact hsc
  obtain ⟨out, hloop, _⟩ := melody_loop_none_term
    (if build_scale_pitch_set spec.tonic_note spec.scale_pattern
        spec.lowest_midi spec.highest_midi = [] then
      int_range spec.lowest_midi spec.highest_midi
    else build_scale_pitch_set spec.tonic_note spec.scale_pattern
      spec.lowest_midi spec.highest_midi)
    spec.lowest_midi spec.highest_midi
    (config.octave_up_chance.getD (3/100))
    (config.rest_probability.getD (15/100))
    ((spec.meter_numerator : ℚ) * (4 / (spec.meter_denominator : ℚ))
      * (spec.total_measures : ℚ))
    hne htotal fuel [] [] 0 0 (mk seed) onGrid_zero hpos
    (by rw [sub_zero]; exact hfuel)
  obtain ⟨p, d, oe, sf⟩ := out
  have hgen : songmaking.generate_random_melody fuel mk spec seed config
      none =
      match melody_loop
        (if build_scale_pitch_set spec.tonic_note spec.scale_pattern
            spec.lowest_midi spec.highest_midi = [] then
          int_range spec.lowest_midi spec.highest_midi
        else build_scale_pitch_set spec.tonic_note spec.scale_pattern
          spec.lowest_midi spec.highest_midi)
        DURATION_VALUES none spec.lowest_midi spec.highest_midi
        (config.octave_up_chance.getD (3/100))
        (config.rest_probability.getD (15/100))
        ((spec.meter_numerator : ℚ) * (4 / (spec.meter_denominator : ℚ))
          * (spec.total_measures : ℚ)) fuel [] [] 0 0 (mk seed) with
      | none => none
      | some (pitches0, durations0, octave_events, _) =>
        some (pitches0, durations0,
          ⟨0, octave_events, durations0.sum, 0⟩) := rfl
  exact ⟨(p, d, ⟨0, oe, d.sum, 0⟩), by rw [hgen, hloop]⟩

open songMaking songmaking in
theorem scored_loop_total (fuel : ℕ) (mk : ℤ → RState) (spec : HarmonySpec)
    (seed : ℤ) (config : GenConfig) (sp : List ℤ) (vd : List ℚ) (ma : ℚ)
    (hgen : ∀ s : ℤ, ∃ r,
      generate_random_melody fuel mk spec s config none = some r) :
    ∀ (r attempt : ℕ), ∃ out,
      scored_loop fuel mk spec seed config none sp vd ma r attempt =
        some out := by
  intro r
  induction r with
  | zero =>
    intro attempt
    exact ⟨([], 0), rfl⟩
  | succ n ih =>
    intro attempt
    rw [scored_loop]
    dsimp only
    obtain ⟨⟨pitches, durations, dstats⟩, hg⟩ :=
      hgen (seed + (attempt : ℤ) * 1000)
    rw [hg]
    dsimp only
    obtain ⟨out, hout⟩ := ih (attempt + 1)
    by_cases hv : pitches.any
        (fun p => decide (0 < p) && !(is_pitch_in_scale p sp)) = true
    · rw [if_pos hv, hout, Option.map_some']
      exact ⟨_, rfl⟩
    · rw [if_neg hv]
      by_cases hid : durations.any
          (fun dur => !(vd.any (fun v => decide (|dur - v| < 1/1000)))) =
            true
      · rw [if_pos hid]
        exact ⟨out, hout⟩
      · rw [if_neg hid]
        by_cases hsn : (pitches.filter (fun p => decide (0 < p))).length < 4
        · rw [if_pos hsn]
          exact ⟨out, hout⟩
        · rw [if_neg hsn]
          obtain ⟨⟨score, metrics⟩, ha⟩ := aggregate_total
            (pitches.filter (fun p => decide (0 < p))) durations none none
          rw [ha]
          dsimp only
          by_cases hth : ma ≤ score
          · rw [if_pos hth, hout, Option.map_some']
            exact ⟨_, rfl⟩
          · rw [if_neg hth]
            exact ⟨out, hout⟩

open songMaking songmaking in
/-- C3: whenever `generate_scored_melody` returns a melody, it is either
the highest-scoring member of the candidate list (candidate `i` generated
with seed `rng_seed + i * 1000`, validated and thresholded exactly as
`candidate_keep` states) when any candidate survives, or — when no
candidate survives — one fallback generation at the base seed, returned
with its score regardless of the threshold; and for a well-formed request
(no structure spec, meter denominator 4 or 8, nonnegative numerator and
measure count, nonempty pitch range, enough fuel) a result is always
returned. -/
theorem C3_scored_selection (fuel : ℕ) (mk : ℤ → RState)
    (spec : HarmonySpec) (seed : ℤ) (config : GenConfig)
    (ss : Option MelodyStructureSpec)
    (p : List ℤ) (d : List ℚ) (sc : ℚ) (st : DebugStats) :
    (generate_scored_melody fuel mk spec seed config ss =
        some (p, d, sc, st) →
      (scored_candidates fuel mk spec seed config ss = [] →
        ∃ st0 metrics,
          generate_random_melody fuel mk spec seed config ss =
            some (p, d, st0) ∧
          aggregate_melody_score (p.filter (fun q => decide (0 < q))) d
            none ss = some (sc, metrics)) ∧
      (scored_candidates fuel mk spec seed config ss ≠ [] →
        ∃ c ∈ scored_candidates fuel mk spec seed config ss,
          p = c.pitches ∧ d = c.durations ∧ sc = c.score ∧
          config.score_threshold.getD (3/10) ≤ sc ∧
          ∀ c' ∈ scored_candidates fuel mk spec seed config ss,
            c'.score ≤ c.score)) ∧
    (ss = none →
      (spec.meter_denominator = 4 ∨ spec.meter_denominator = 8) →
      0 ≤ spec.meter_numerator → 0 ≤ spec.total_measures →
      spec.lowest_midi ≤ spec.highest_midi →
      (spec.meter_numerator : ℚ) * (4 / (spec.meter_denominator : ℚ))
          * (spec.total_measures : ℚ) * 8 < (fuel : ℚ) →
      ∃ res, generate_scored_melody fuel mk spec seed config ss =
        some res) := by
  constructor
  · intro hout
    unfold generate_scored_melody at hout
    dsimp only at hout
    split at hout
    · exact absurd hout (by simp)
    · rename_i candidates rejections heq
      have hcands : candidates =
          scored_candidates fuel mk spec seed config ss := by
        rw [scored_loop_eq fuel mk spec seed config ss _ _ _ _ _ _ _ heq]
        unfold scored_candidates
        rw [List.range_eq_range']
      split at hout
      · constructor
        · intro _
          split at hout
          · exact absurd hout (by simp)
          · rename_i p0 d0 st0 hg
            split at hout
            · exact absurd hout (by simp)
            · rename_i score metrics ha
              simp only [Option.some_inj, Prod.mk.injEq] at hout
              obtain ⟨hp, hd, hsc, _⟩ := hout
              refine ⟨st0, metrics, ?_, ?_⟩
              · rw [hg, hp, hd]
              · rw [← hp, ← hd, ← hsc]
                exact ha
        · intro hne
          exact absurd hcands.symm hne
      · rename_i c0 crest
        constructor
        · intro hemp
          rw [← hcands] at hemp
          exact absurd hemp (by simp)
        · intro _
          cases hs : sort_candidates (c0 :: crest) with
          | nil =>
            exfalso
            have := mem_sort_candidates.mpr
              (List.mem_cons_self c0 crest)
            rw [hs] at this
            exact absurd this (List.not_mem_nil c0)
          | cons b bs =>
            rw [hs] at hout
            rw [List.headD_cons] at hout
            simp only [Option.some_inj, Prod.mk.injEq] at hout
            obtain ⟨hp, hd, hsc, _⟩ := hout
            have hbmem : b ∈ sort_candidates (c0 :: crest) := by
              rw [hs]
              exact List.mem_cons_self b bs
            have hbc : b ∈ scored_candidates fuel mk spec seed config ss := by
              rw [← hcands]
              exact mem_sort_candidates.mp hbmem
            refine ⟨b, hbc, hp.symm, hd.symm, hsc.symm, ?_, ?_⟩
            · have hbc2 := hbc
              unfold scored_candidates at hbc2
              obtain ⟨i, _, hkeep⟩ := List.mem_filterMap.mp hbc2
              have hth := candidate_keep_score hkeep
              rw [hsc] at hth
              exact hth
            · intro c' hc'
              rw [← hcands] at hc'
              have hcs : c' ∈ sort_candidates (c0 :: crest) :=
                mem_sort_candidates.mpr hc'
              rw [hs] at hcs
              rcases List.mem_cons.mp hcs with h1 | h2
              · rw [h1]
              · have hpw := sort_candidates_pairwise (c0 :: crest)
                rw [hs] at hpw
                exact (List.pairwise_cons.mp hpw).1 c' h2
  · intro hss hden hnum hmeas hrange hfuel
    subst hss
    have hgen : ∀ s : ℤ, ∃ r,
        generate_random_melody fuel mk spec s config none = some r :=
      fun s => songmaking_random_total mk spec s config fuel hden hnum
        hmeas hrange hfuel
    obtain ⟨⟨cands, rej⟩, hloop⟩ := scored_loop_total fuel mk spec seed
      config
      (build_scale_pitch_set spec.tonic_note spec.scale_pattern
        spec.lowest_midi spec.highest_midi)
      (get_discrete_duration_values ((spec.meter_numerator : ℚ) *
        (4 / (spec.meter_denominator : ℚ))))
      (config.score_threshold.getD (3/10)) hgen
      (config.candidate_count.getD 10) 0
    unfold generate_scored_melody
    dsimp only
    rw [hloop]
    dsimp only
    cases cands with
    | nil =>
      obtain ⟨⟨p0, d0, st0⟩, hg⟩ := hgen seed
      rw [hg]
      dsimp only
      obtain ⟨⟨score, mets⟩, ha⟩ := aggregate_total
        (p0.filter (fun q => decide (0 < q))) d0 none none
      rw [ha]
      exact ⟨_, rfl⟩
    | cons c0 crest =>
      exact ⟨_, rfl⟩

/-- Witness for C3 at a one-measure C-major spec with the all-zero
stream, one candidate and threshold 3/10: the single candidate (a
one-note rest melody) is rejected for sparsity, so the fallback at the
base seed is returned with its actual score 2/5; and the well-formedness
conditions guarantee a result exists. -/
theorem C3_scored_selection_witness :
    (∃ st0 metrics,
      songmaking.generate_random_melody 100 mkZero (specCMaj 1) 0
        ⟨none, none, none, some 1, some (3/10)⟩ none =
          some ([0], [4], st0) ∧
      songMaking.aggregate_melody_score
        (([0] : List ℤ).filter (fun q => decide (0 < q))) [4] none none =
          some (2/5, metrics)) ∧
    (∃ res, songmaking.generate_scored_melody 100 mkZero (specCMaj 1) 0
      ⟨none, none, none, some 1, some (3/10)⟩ none = some res) := by
  have hC3 := C3_scored_selection 100 mkZero (specCMaj 1) 0
    ⟨none, none, none, some 1, some (3/10)⟩ none [0] [4] (2/5) ⟨0, 0, 4, 0⟩
  constructor
  · exact (hC3.1 (by decide)).1 (by decide)
  · exact hC3.2 rfl (Or.inl rfl) (by decide) (by decide) (by decide)
      (by norm_num [specCMaj])
